import Mathlib

/-!
VertexShader: gather, shade, perspective divide, scatter.

A shallow embedding of `firmware/3D-renderer/VertexShader.cpp`.

* `int` values and the lanes of a `veci16` are integers kept in the signed
  32-bit range by `wrap32` after every arithmetic operation.
* A `vecf16` is a 16-lane vector over an arbitrary carrier `F` of float values;
  the only float operations the code performs are `1.0`, `/` and `*`.
* Memory is a map from 32-bit byte addresses to float cells.  Float pointers are
  4-byte aligned, so two cells are either the same cell or disjoint, and a cell
  is named by its byte address.
* Code whose behaviour is undefined in C (a shift by a negative count, an
  out-of-range index into `packedParams`) yields `none`.
-/

namespace render

variable {F : Type}

/-! ## Vector types and lane-wise operations -/

/-- Sixteen lanes of 32-bit signed integers. -/
abbrev veci16 := Fin 16 → Int

/-- Sixteen lanes of floats. -/
abbrev vecf16 (F : Type) := Fin 16 → F

/-- Reduction of an integer to the signed 32-bit range (two's complement). -/
def wrap32 (x : Int) : Int := (x + 2147483648) % 4294967296 - 2147483648

/-- Modelled from the spec: `splati` (declared in the missing vector header)
broadcasts one 32-bit integer to all sixteen lanes. -/
def splati (x : Int) : veci16 := fun _ => wrap32 x

/-- Modelled from the spec: `splatf` (declared in the missing vector header)
broadcasts one float to all sixteen lanes. -/
def splatf {F : Type} (x : F) : vecf16 F := fun _ => x

/-- Lane-wise 32-bit addition of integer vectors (`+` on `veci16`). -/
def veci16.add (a b : veci16) : veci16 := fun i => wrap32 (a i + b i)

/-- Lane-wise 32-bit multiplication of integer vectors (`*` on `veci16`). -/
def veci16.mul (a b : veci16) : veci16 := fun i => wrap32 (a i * b i)

/-- Lane-wise float multiplication (`*` on `vecf16`). -/
def vecf16.mul {F : Type} [Mul F] (a b : vecf16 F) : vecf16 F := fun i => a i * b i

/-- Lane-wise float division (`/` on `vecf16`). -/
def vecf16.div {F : Type} [Div F] (a b : vecf16 F) : vecf16 F := fun i => a i / b i

/-! ## Memory and the masked gather / scatter builtins -/

/-- Memory together with the trace of cells read and written by one call. -/
structure Machine (F : Type) where
  mem : Nat → F
  reads : List Nat
  writes : List Nat

/-- The byte address denoted by a 32-bit lane value (its unsigned reading). -/
def addrOf (x : Int) : Nat := (x % 4294967296).toNat

/-- Modelled from the spec: the mask convention of the gather / scatter
builtins (they are compiler builtins, not in the source file).  Lane 0 is the
highest-order bit of the 16-bit mask, so lane `i` is governed by bit `15 - i`. -/
def laneActive (mask : Nat) (i : Fin 16) : Bool := mask.testBit (15 - i.val)

/-- The lanes a mask activates, in lane order. -/
def activeLanes (mask : Nat) : List (Fin 16) := (List.finRange 16).filter (laneActive mask)

/-- Modelled from the spec: `__builtin_vp_gather_loadf_masked(ptr, mask)`.  An
active lane loads the float cell its pointer lane addresses; an inactive lane
performs no read and keeps the value `old` that the destination held. -/
def gather_loadf_masked {F : Type} (m : Machine F) (ptr : veci16) (mask : Nat)
    (old : vecf16 F) : vecf16 F × Machine F :=
  (fun i => if laneActive mask i then m.mem (addrOf (ptr i)) else old i,
   { m with reads := m.reads ++ (activeLanes mask).map (fun i => addrOf (ptr i)) })

/-- One lane of a masked scatter store. -/
def storeLane {F : Type} (ptr : veci16) (val : vecf16 F) (mask : Nat)
    (m : Machine F) (i : Fin 16) : Machine F :=
  if laneActive mask i then
    { m with mem := Function.update m.mem (addrOf (ptr i)) (val i),
             writes := m.writes ++ [addrOf (ptr i)] }
  else m

/-- Modelled from the spec: `__builtin_vp_scatter_storef_masked(ptr, val, mask)`.
Each active lane stores its value to the cell its pointer lane addresses, lanes
taken in ascending order; an inactive lane performs no write. -/
def scatter_storef_masked {F : Type} (m : Machine F) (ptr : veci16) (val : vecf16 F)
    (mask : Nat) : Machine F :=
  (List.finRange 16).foldl (storeLane ptr val mask) m

/-! ## The shader object -/

/-- The constant `kStepVector`. -/
def kStepVector : veci16 := ![0, 4, 8, 12, 16, 20, 24, 28, 32, 36, 40, 44, 48, 52, 56, 60]

/-- The data members of `VertexShader`. -/
structure VertexShader where
  fParamsPerVertex : Int
  fParamStepVector : veci16
  fAttribsPerVertex : Int
  fAttribStepVector : veci16

/-- The constructor `VertexShader::VertexShader(attribsPerVertex, paramsPerVertex)`. -/
def VertexShader.new (attribsPerVertex paramsPerVertex : Int) : VertexShader :=
  { fParamsPerVertex := paramsPerVertex
    fParamStepVector := kStepVector.mul (splati paramsPerVertex)
    fAttribsPerVertex := attribsPerVertex
    fAttribStepVector := kStepVector.mul (splati attribsPerVertex) }

/-- The reserved parameter indices `kParamX`, `kParamY`, `kParamW`.  They are
declared in `VertexShader.h`, which is not part of the source at hand, so they
are parameters of the model. -/
structure ParamIndices where
  kParamX : Nat
  kParamY : Nat
  kParamW : Nat

/-- The reserved indices all lie in the first four parameter slots. -/
def ParamIndices.Reserved (k : ParamIndices) : Prop :=
  k.kParamX < 4 ∧ k.kParamY < 4 ∧ k.kParamW < 4

/-- The reserved indices are pairwise distinct. -/
def ParamIndices.Distinct (k : ParamIndices) : Prop :=
  k.kParamX ≠ k.kParamY ∧ k.kParamX ≠ k.kParamW ∧ k.kParamY ≠ k.kParamW

instance (k : ParamIndices) : Decidable k.Reserved :=
  inferInstanceAs (Decidable (k.kParamX < 4 ∧ k.kParamY < 4 ∧ k.kParamW < 4))

instance (k : ParamIndices) : Decidable k.Distinct :=
  inferInstanceAs
    (Decidable (k.kParamX ≠ k.kParamY ∧ k.kParamX ≠ k.kParamW ∧ k.kParamY ≠ k.kParamW))

/-- The virtual method `shadeVertices(outParams, inAttribs, mask)`: given the
packed attributes and the mask, `shade packedAttribs mask p` is the lane vector
the capability leaves in `packedParams[p]`. -/
abbrev Shade (F : Type) := List (vecf16 F) → Nat → Nat → vecf16 F

/-! ## processVertices -/

/-- The mask computation at the head of `processVertices`.  `0xffff0000` is an
unsigned 32-bit constant, so `>>` is a logical shift; a negative shift count is
undefined. -/
def computeMask (numVertices : Int) : Option Nat :=
  if numVertices < 16 then
    if numVertices < 0 then none
    else some ((0xffff0000 >>> numVertices.toNat) &&& 0xffff)
  else some 0xffff

/-- The gather loop: `n` iterations remain, `attrib` is the loop counter.
`uninit a` is the indeterminate content of the uninitialised `packedAttribs[a]`. -/
def gatherLoop {F : Type} (mask : Nat) (uninit : Nat → vecf16 F) :
    Nat → Nat → veci16 → List (vecf16 F) → Machine F → veci16 × List (vecf16 F) × Machine F
  | 0, _, attribPtr, packedAttribs, m => (attribPtr, packedAttribs, m)
  | n + 1, attrib, attribPtr, packedAttribs, m =>
    let r := gather_loadf_masked m attribPtr mask (uninit attrib)
    gatherLoop mask uninit n (attrib + 1) (attribPtr.add (splati 4))
      (packedAttribs.set attrib r.1) r.2

/-- The scatter loop: `n` iterations remain, `param` is the loop counter. -/
def scatterLoop {F : Type} (mask : Nat) (packedParams : List (vecf16 F)) :
    Nat → Nat → veci16 → Machine F → Option (veci16 × Machine F)
  | 0, _, paramPtr, m => some (paramPtr, m)
  | n + 1, param, paramPtr, m =>
    match packedParams[param]? with
    | none => none
    | some v =>
      scatterLoop mask packedParams n (param + 1) (paramPtr.add (splati 4))
        (scatter_storef_masked m paramPtr v mask)

/-- The perspective division step on `packedParams`. -/
def perspectiveDivide {F : Type} [One F] [Mul F] [Div F] (k : ParamIndices)
    (packedParams : List (vecf16 F)) : Option (List (vecf16 F)) :=
  match packedParams[k.kParamW]? with
  | none => none
  | some w =>
    let oneOverW := vecf16.div (splatf 1) w
    match packedParams[k.kParamX]? with
    | none => none
    | some x =>
      let packedParams1 := packedParams.set k.kParamX (vecf16.mul x oneOverW)
      match packedParams1[k.kParamY]? with
      | none => none
      | some y => some (packedParams1.set k.kParamY (vecf16.mul y oneOverW))

/-- The packed attributes handed to `shadeVertices`, with the machine state after
the gather loop. -/
def gatherAttribs {F : Type} (self : VertexShader) (uninit : Nat → vecf16 F)
    (mem : Nat → F) (attribs : Nat) (mask : Nat) : List (vecf16 F) × Machine F :=
  let attribPtr := self.fAttribStepVector.add (splati ((attribs : Int) % 4294967296))
  let n := self.fAttribsPerVertex.toNat
  (gatherLoop mask uninit n 0 attribPtr ((List.range n).map uninit) ⟨mem, [], []⟩).2

/-- The method `VertexShader::processVertices(outParams, attribs, numVertices)`
run on memory `mem`, with shading capability `shade`. -/
def processVertices {F : Type} [One F] [Mul F] [Div F] (k : ParamIndices)
    (self : VertexShader) (shade : Shade F) (uninit : Nat → vecf16 F) (mem : Nat → F)
    (outParams attribs : Nat) (numVertices : Int) : Option (Machine F) :=
  match computeMask numVertices with
  | none => none
  | some mask =>
    let g := gatherAttribs self uninit mem attribs mask
    let packedParams := (List.range self.fParamsPerVertex.toNat).map (shade g.1 mask)
    match perspectiveDivide k packedParams with
    | none => none
    | some divided =>
      let paramPtr := self.fParamStepVector.add (splati ((outParams : Int) % 4294967296))
      (scatterLoop mask divided self.fParamsPerVertex.toNat 0 paramPtr g.2).map Prod.snd

/-! ## Auxiliary notions used in the statements -/

/-- The pointer vector after `t` increments by `splati 4`. -/
def advance (ptr : veci16) : Nat → veci16
  | 0 => ptr
  | t + 1 => advance (ptr.add (splati 4)) t

/-- The 32-bit address of float `p` of record `i` in a buffer at `base` whose
records hold `size` floats. -/
def cellAddr (base : Nat) (size : Int) (i p : Nat) : Nat :=
  addrOf ((base : Int) + 4 * ((i : Int) * size + (p : Int)))

/-- The addresses read by `n` iterations of the gather loop starting at `ptr`. -/
def gatherReads (mask : Nat) : Nat → veci16 → List Nat
  | 0, _ => []
  | n + 1, ptr =>
    (activeLanes mask).map (fun i => addrOf (ptr i)) ++ gatherReads mask n (ptr.add (splati 4))

/-- Memory after a sequence of (address, value) stores, applied in order. -/
def applyWrites : List (Nat × F) → (Nat → F) → (Nat → F)
  | [], mem => mem
  | kv :: l, mem => applyWrites l (Function.update mem kv.1 kv.2)

/-- The (address, value) stores of one masked scatter, in lane order. -/
def scatterPairs (ptr : veci16) (val : vecf16 F) (mask : Nat) : List (Nat × F) :=
  (activeLanes mask).map (fun i => (addrOf (ptr i), val i))

/-- The (address, value) stores of `n` iterations of the scatter loop. -/
def loopPairs (mask : Nat) (packedParams : List (vecf16 F)) : Nat → Nat → veci16 → List (Nat × F)
  | 0, _, _ => []
  | n + 1, param, ptr =>
    (match packedParams[param]? with
      | some v => scatterPairs ptr v mask
      | none => []) ++ loopPairs mask packedParams n (param + 1) (ptr.add (splati 4))

/-- The pointer vector `stepVector + splati((unsigned int) base)` for records of
`size` floats: the initial `attribPtr` and `paramPtr` of `processVertices`. -/
def basePtr (size : Int) (base : Nat) : veci16 :=
  (kStepVector.mul (splati size)).add (splati ((base : Int) % 4294967296))

/-- The content of `packedParams` when `shadeVertices` returns. -/
def shadedParams (attribsPerVertex paramsPerVertex : Int) (shade : Shade F)
    (uninit : Nat → vecf16 F) (mem : Nat → F) (attribs : Nat) (mask : Nat) : List (vecf16 F) :=
  (List.range paramsPerVertex.toNat).map
    (shade (gatherAttribs (VertexShader.new attribsPerVertex paramsPerVertex) uninit mem
      attribs mask).1 mask)

/-- Sample reserved indices: X, Y, W in slots 0, 1, 3. -/
def demoIdx : ParamIndices := ⟨0, 1, 3⟩

/-- A capability that returns constant X = 4, Y = 6, W = 2 (under `demoIdx`). -/
def demoShade : Shade ℚ := fun _ _ p _ => if p = 0 then 4 else if p = 1 then 6 else 2

/-- A sample memory: every cell holds its own address. -/
def demoMem : Nat → ℚ := fun a => a

/-- Sample indeterminate contents for the inactive lanes. -/
def demoUninit : Nat → vecf16 ℚ := fun _ _ => 0

/-- The X, Y and W floats of record `i` of the output buffer are `x`, `y`, `w`. -/
def RecordXYW (k : ParamIndices) (mem : Nat → F) (outParams : Nat) (paramsPerVertex : Int)
    (i : Nat) (x y w : F) : Prop :=
  mem (outParams + 4 * (i * paramsPerVertex.toNat + k.kParamX)) = x ∧
  mem (outParams + 4 * (i * paramsPerVertex.toNat + k.kParamY)) = y ∧
  mem (outParams + 4 * (i * paramsPerVertex.toNat + k.kParamW)) = w

instance [DecidableEq F] (k : ParamIndices) (mem : Nat → F) (outParams : Nat)
    (paramsPerVertex : Int) (i : Nat) (x y w : F) :
    Decidable (RecordXYW k mem outParams paramsPerVertex i x y w) :=
  inferInstanceAs (Decidable (_ ∧ _ ∧ _))

/-- The spec's notion of a correct mask: the lanes it activates are exactly the
first `min numVertices 16` lanes. -/
def MaskCorrect (numVertices : Int) (mask : Nat) : Prop :=
  ∀ i : Fin 16, laneActive mask i = true ↔ (i.val : Int) < min numVertices 16

instance (numVertices : Int) (mask : Nat) : Decidable (MaskCorrect numVertices mask) :=
  inferInstanceAs
    (Decidable (∀ i : Fin 16, laneActive mask i = true ↔ (i.val : Int) < min numVertices 16))

/-- The number of set bits among the low `width` bits of `n`. -/
def bitCount (width n : Nat) : Nat := ((List.range width).filter (fun b => n.testBit b)).length

/-- A lane-wise capability: lane `i` of every output vector depends on the packed
attributes only through their lane `i`. -/
def LaneWise (shade : Shade F) : Prop :=
  ∀ (pa1 pa2 : List (vecf16 F)) (mask p : Nat) (i : Fin 16), pa1.length = pa2.length →
    (∀ (a : Nat) (v1 v2 : vecf16 F), pa1[a]? = some v1 → pa2[a]? = some v2 → v1 i = v2 i) →
    shade pa1 mask p i = shade pa2 mask p i

/-- A sample memory that agrees with `demoMem` below address 200 only. -/
def demoMemCut : Nat → ℚ := fun a => if a < 200 then a else 0

/-- A capability that returns attribute 4 plus one in parameter 4 and the
constant 1 in every other parameter. -/
def bumpShade : Shade ℚ := fun pa _ p i => if p = 4 then (pa.getD 4 (fun _ => 0)) i + 1 else 1

/-- One execution of the body of the gather loop on the loop state
`(attrib, attribPtr, packedAttribs, machine)`. -/
def gatherBody (mask : Nat) (uninit : Nat → vecf16 F)
    (s : Nat × veci16 × List (vecf16 F) × Machine F) :
    Nat × veci16 × List (vecf16 F) × Machine F :=
  let r := gather_loadf_masked s.2.2.2 s.2.1 mask (uninit s.1)
  (s.1 + 1, s.2.1.add (splati 4), s.2.2.1.set s.1 r.1, r.2)

/-- The state of the gather loop after `t` executions of its body. -/
def gatherIter (mask : Nat) (uninit : Nat → vecf16 F)
    (s : Nat × veci16 × List (vecf16 F) × Machine F) :
    Nat → Nat × veci16 × List (vecf16 F) × Machine F
  | 0 => s
  | t + 1 => gatherBody mask uninit (gatherIter mask uninit s t)

/-- One execution of the body of the scatter loop on the loop state
`(param, paramPtr, machine)`; `none` when `packedParams[param]` is out of range. -/
def scatterBody (mask : Nat) (packedParams : List (vecf16 F))
    (s : Nat × veci16 × Machine F) : Option (Nat × veci16 × Machine F) :=
  match packedParams[s.1]? with
  | none => none
  | some v => some (s.1 + 1, s.2.1.add (splati 4), scatter_storef_masked s.2.2 s.2.1 v mask)

/-- The state of the scatter loop after `t` executions of its body. -/
def scatterIter (mask : Nat) (packedParams : List (vecf16 F))
    (s : Nat × veci16 × Machine F) : Nat → Option (Nat × veci16 × Machine F)
  | 0 => some s
  | t + 1 => (scatterIter mask packedParams s t).bind (scatterBody mask packedParams)

/-- A capability whose outputs on the active lanes depend on the packed
attributes only through their active lanes. -/
def ActiveOnly (shade : Shade F) : Prop :=
  ∀ (pa1 pa2 : List (vecf16 F)) (mask p : Nat), pa1.length = pa2.length →
    (∀ (a : Nat) (v1 v2 : vecf16 F) (j : Fin 16), pa1[a]? = some v1 → pa2[a]? = some v2 →
      laneActive mask j = true → v1 j = v2 j) →
    ∀ i : Fin 16, laneActive mask i = true → shade pa1 mask p i = shade pa2 mask p i

/-- A capability that returns, in every lane of parameter 4, lane 15 of
attribute 0, and the constant 1 in every other parameter. -/
def peekShade : Shade ℚ := fun pa _ p _ => if p = 4 then (pa.getD 0 (fun _ => 0)) 15 else 1

/-- Sample indeterminate contents for the inactive lanes, different from
`demoUninit`. -/
def demoUninit7 : Nat → vecf16 ℚ := fun _ _ => 7

/-! ## Machine arithmetic -/

theorem wrap32_modEq (x : Int) : wrap32 x ≡ x [ZMOD 4294967296] := by
  unfold wrap32 Int.ModEq; omega

theorem wrap32_eq_of_modEq {x y : Int} (h : x ≡ y [ZMOD 4294967296]) : wrap32 x = wrap32 y := by
  unfold wrap32
  unfold Int.ModEq at h
  omega

theorem wrap32_of_range {x : Int} (h0 : -2147483648 ≤ x) (h1 : x < 2147483648) :
    wrap32 x = x := by
  unfold wrap32; omega

theorem addrOf_congr {x y : Int} (h : x ≡ y [ZMOD 4294967296]) : addrOf x = addrOf y := by
  unfold addrOf; rw [h]

theorem addrOf_lt (x : Int) : addrOf x < 4294967296 := by
  unfold addrOf; omega

theorem kStepVector_apply (i : Fin 16) : kStepVector i = 4 * (i.val : Int) := by
  revert i; decide

theorem stepVector_lane (size : Int) (i : Fin 16) :
    (kStepVector.mul (splati size)) i = wrap32 ((i.val : Int) * 4 * size) := by
  unfold veci16.mul splati
  apply wrap32_eq_of_modEq
  rw [kStepVector_apply]
  have e : (i.val : Int) * 4 * size = 4 * (i.val : Int) * size := by ring
  rw [e]
  exact Int.ModEq.mul_left _ (wrap32_modEq size)

theorem stepVector_exact (size : Int) (i : Fin 16)
    (h0 : -2147483648 ≤ 60 * size) (h1 : 60 * size < 2147483648) :
    wrap32 ((i.val : Int) * 4 * size) = (i.val : Int) * 4 * size := by
  apply wrap32_of_range <;> fin_cases i <;> simp <;> omega

theorem advance_succ (ptr : veci16) (t : Nat) :
    advance ptr (t + 1) = advance (ptr.add (splati 4)) t := rfl

theorem advance_modEq (ptr : veci16) (t : Nat) (i : Fin 16) :
    advance ptr t i ≡ ptr i + 4 * (t : Int) [ZMOD 4294967296] := by
  induction t generalizing ptr with
  | zero => simp [advance]
  | succ t ih =>
    have h1 := ih (ptr.add (splati 4))
    have h2 : (ptr.add (splati 4)) i ≡ ptr i + 4 [ZMOD 4294967296] := by
      unfold veci16.add splati
      exact (wrap32_modEq _).trans (Int.ModEq.add (Int.ModEq.refl _) (wrap32_modEq 4))
    simp only [advance]
    refine h1.trans ?_
    have := Int.ModEq.add_right (4 * (t : Int)) h2
    refine this.trans ?_
    push_cast
    have e : ptr i + 4 + 4 * (t : Int) = ptr i + 4 * ((t : Int) + 1) := by ring
    rw [e]

theorem stepVector_modEq (size : Int) (base : Nat) (i : Fin 16) :
    ((kStepVector.mul (splati size)).add (splati ((base : Int) % 4294967296))) i
      ≡ (base : Int) + 4 * ((i.val : Int) * size) [ZMOD 4294967296] := by
  unfold veci16.add veci16.mul splati
  refine (wrap32_modEq _).trans ?_
  have h1 : wrap32 (kStepVector i * wrap32 size) ≡ 4 * ((i.val : Int) * size) [ZMOD 4294967296] := by
    refine (wrap32_modEq _).trans ?_
    rw [kStepVector_apply, mul_assoc]
    exact Int.ModEq.mul_left _ (Int.ModEq.mul_left _ (wrap32_modEq size))
  have h2 : wrap32 ((base : Int) % 4294967296) ≡ (base : Int) [ZMOD 4294967296] :=
    (wrap32_modEq _).trans (Int.mod_modEq _ _)
  have h3 := Int.ModEq.add h1 h2
  rwa [add_comm (4 * ((i.val : Int) * size)) (base : Int)] at h3

theorem lanePtr_addr (size : Int) (base : Nat) (i : Fin 16) (t : Nat) :
    addrOf (advance ((kStepVector.mul (splati size)).add
      (splati ((base : Int) % 4294967296))) t i) = cellAddr base size i.val t := by
  unfold cellAddr
  apply addrOf_congr
  refine (advance_modEq _ t i).trans ?_
  have := Int.ModEq.add_right (4 * (t : Int)) (stepVector_modEq size base i)
  refine this.trans ?_
  have e : (base : Int) + 4 * ((i.val : Int) * size) + 4 * (t : Int)
      = (base : Int) + 4 * ((i.val : Int) * size + (t : Int)) := by ring
  rw [e]

theorem basePtr_addr (size : Int) (base : Nat) (i : Fin 16) (t : Nat) :
    addrOf (advance (basePtr size base) t i) = cellAddr base size i.val t :=
  lanePtr_addr size base i t

theorem record_lt {i p s n : Nat} (hi : i < n) (hp : p < s) : i * s + p < n * s := by
  have h1 : (i + 1) * s ≤ n * s := Nat.mul_le_mul_right s hi
  have h2 : (i + 1) * s = i * s + s := by ring
  omega

theorem record_inj {i p j q s : Nat} (hp : p < s) (hq : q < s)
    (h : i * s + p = j * s + q) : i = j ∧ p = q := by
  have hs : 0 < s := by omega
  have h1 : (i * s + p) / s = i := by
    rw [Nat.add_comm, Nat.add_mul_div_right _ _ hs, Nat.div_eq_of_lt hp, Nat.zero_add]
  have h2 : (j * s + q) / s = j := by
    rw [Nat.add_comm, Nat.add_mul_div_right _ _ hs, Nat.div_eq_of_lt hq, Nat.zero_add]
  have hij : i = j := by rw [← h1, ← h2, h]
  subst hij
  exact ⟨rfl, by omega⟩

theorem cellAddr_eq (base : Nat) (size : Int) (i p : Nat)
    (h : base + 4 * (i * size.toNat + p) < 4294967296) (hs : 0 ≤ size) :
    cellAddr base size i p = base + 4 * (i * size.toNat + p) := by
  obtain ⟨s, rfl⟩ := Int.eq_ofNat_of_zero_le hs
  simp only [Int.toNat_ofNat] at h ⊢
  unfold cellAddr addrOf
  have e : (base : Int) + 4 * ((i : Int) * (s : Int) + (p : Int))
      = ((base + 4 * (i * s + p) : Nat) : Int) := by push_cast; ring
  rw [e, Int.emod_eq_of_lt (Int.natCast_nonneg _) (by exact_mod_cast h), Int.toNat_ofNat]

theorem cellAddr_mod (base : Nat) (size : Int) (i p : Nat) (hs : 0 ≤ size) :
    cellAddr base size i p = (base + 4 * (i * size.toNat + p)) % 4294967296 := by
  obtain ⟨s, rfl⟩ := Int.eq_ofNat_of_zero_le hs
  simp only [Int.toNat_ofNat]
  unfold cellAddr addrOf
  have e : (base : Int) + 4 * ((i : Int) * (s : Int) + (p : Int))
      = ((base + 4 * (i * s + p) : Nat) : Int) := by push_cast; ring
  rw [e]
  omega

/-- Under the no-wrap condition the address of float `p` of an active record is
the plain sum. -/
theorem cellAddr_fit (base : Nat) (size : Int) (n : Nat) (i p : Nat)
    (hfit : base + 4 * (size.toNat * n) ≤ 4294967296) (hi : i < n) (hp : p < size.toNat) :
    cellAddr base size i p = base + 4 * (i * size.toNat + p) := by
  have h1 := record_lt hi hp
  have h2 : n * size.toNat = size.toNat * n := Nat.mul_comm _ _
  apply cellAddr_eq
  · omega
  · omega

/-! ## The mask -/

theorem computeMask_spec (numVertices : Int) (h0 : 0 ≤ numVertices) :
    ∃ mask, computeMask numVertices = some mask ∧ mask < 65536 ∧
      ∀ i : Fin 16, laneActive mask i = true ↔ (i.val : Int) < numVertices := by
  by_cases h : numVertices < 16
  · obtain ⟨n, rfl⟩ := Int.eq_ofNat_of_zero_le h0
    have hn : n < 16 := by omega
    refine ⟨(0xffff0000 >>> n) &&& 0xffff, by simp [computeMask, h, h0], ?_, ?_⟩ <;>
      interval_cases n <;> decide
  · refine ⟨0xffff, by simp [computeMask, h], by decide, ?_⟩
    intro i
    have : laneActive 0xffff i = true := by revert i; decide
    simp only [this, true_iff]
    have := i.isLt
    omega

/-- The number of lanes in use: `numVertices` capped at sixteen. -/
theorem computeMask_count (numVertices : Int) (h0 : 0 ≤ numVertices) :
    ∃ mask, computeMask numVertices = some mask ∧ mask < 65536 ∧
      ∀ i : Fin 16, laneActive mask i = true ↔ i.val < (min numVertices 16).toNat := by
  obtain ⟨mask, h1, h2, h3⟩ := computeMask_spec numVertices h0
  refine ⟨mask, h1, h2, fun i => ?_⟩
  rw [h3]
  have := i.isLt
  omega

theorem activeLanes_length (mask n : Nat) (hn : n ≤ 16)
    (hact : ∀ i : Fin 16, laneActive mask i = true ↔ i.val < n) :
    (activeLanes mask).length = n := by
  have e : activeLanes mask = (List.finRange 16).filter (fun i => decide (i.val < n)) := by
    unfold activeLanes
    apply List.filter_congr
    intro i _
    by_cases h : i.val < n
    · simp [h, (hact i).2 h]
    · have : laneActive mask i = false := by
        cases hl : laneActive mask i with
        | false => rfl
        | true => exact absurd ((hact i).1 hl) h
      simp [h, this]
  rw [e]
  interval_cases n <;> decide

/-! ## The gather loop -/

theorem gatherLoop_machine (mask : Nat) (uninit : Nat → vecf16 F) (n a : Nat) (ptr : veci16)
    (pa : List (vecf16 F)) (m : Machine F) :
    (gatherLoop mask uninit n a ptr pa m).2.2
      = { m with reads := m.reads ++ gatherReads mask n ptr } := by
  induction n generalizing a ptr pa m with
  | zero => simp [gatherLoop, gatherReads]
  | succ n ih =>
    simp only [gatherLoop, gatherReads, ih, gather_loadf_masked, List.append_assoc]

theorem gatherLoop_get (mask : Nat) (uninit : Nat → vecf16 F) (n a : Nat) (ptr : veci16)
    (pa : List (vecf16 F)) (m : Machine F) (j : Nat) :
    (gatherLoop mask uninit n a ptr pa m).2.1[j]?
      = if a ≤ j ∧ j < a + n then
          (if j < pa.length then
            some (fun i => if laneActive mask i then m.mem (addrOf (advance ptr (j - a) i))
                           else uninit j i)
           else none)
        else pa[j]? := by
  induction n generalizing a ptr pa m with
  | zero =>
    have : ¬ (a ≤ j ∧ j < a + 0) := by omega
    rw [if_neg this]; rfl
  | succ n ih =>
    simp only [gatherLoop]
    rw [ih]
    by_cases h1 : a + 1 ≤ j ∧ j < a + 1 + n
    · have h2 : a ≤ j ∧ j < a + (n + 1) := by omega
      have h3 : j - a = (j - (a + 1)) + 1 := by omega
      simp only [h1, h2, and_self, if_true, List.length_set, h3, advance_succ, gather_loadf_masked]
    · simp only [h1, if_false]
      by_cases h4 : j = a
      · subst h4
        have h2 : j ≤ j ∧ j < j + (n + 1) := by omega
        simp only [h2, and_self, if_true, Nat.sub_self, advance, gather_loadf_masked]
        by_cases h5 : j < pa.length
        · simp [h5]
        · simp [h5]; omega
      · have h2 : ¬ (a ≤ j ∧ j < a + (n + 1)) := by omega
        simp only [h2, if_false]
        rw [List.getElem?_set_ne (by omega)]

theorem mem_gatherReads (mask : Nat) (n : Nat) (ptr : veci16) (r : Nat) :
    r ∈ gatherReads mask n ptr ↔
      ∃ t, t < n ∧ ∃ i : Fin 16, laneActive mask i = true ∧ r = addrOf (advance ptr t i) := by
  induction n generalizing ptr with
  | zero => simp [gatherReads]
  | succ n ih =>
    simp only [gatherReads, List.mem_append, List.mem_map, activeLanes, List.mem_filter,
      List.mem_finRange, true_and, ih]
    constructor
    · rintro (⟨i, hi, rfl⟩ | ⟨t, ht, i, hi, rfl⟩)
      · exact ⟨0, by omega, i, hi, rfl⟩
      · exact ⟨t + 1, by omega, i, hi, rfl⟩
    · rintro ⟨t, ht, i, hi, rfl⟩
      cases t with
      | zero => exact Or.inl ⟨i, hi, rfl⟩
      | succ t => exact Or.inr ⟨t, by omega, i, hi, rfl⟩

theorem gatherReads_length (mask : Nat) (n : Nat) (ptr : veci16) :
    (gatherReads mask n ptr).length = n * (activeLanes mask).length := by
  induction n generalizing ptr with
  | zero => simp [gatherReads]
  | succ n ih => simp [gatherReads, ih]; ring

theorem gatherAttribs_machine (apv ppv : Int) (uninit : Nat → vecf16 F) (mem : Nat → F)
    (attribs mask : Nat) :
    (gatherAttribs (VertexShader.new apv ppv) uninit mem attribs mask).2
      = ⟨mem, gatherReads mask apv.toNat (basePtr apv attribs), []⟩ := by
  simp only [gatherAttribs, VertexShader.new, gatherLoop_machine, basePtr, List.nil_append]

theorem gatherAttribs_get (apv ppv : Int) (uninit : Nat → vecf16 F) (mem : Nat → F)
    (attribs mask : Nat) (a : Nat) :
    (gatherAttribs (VertexShader.new apv ppv) uninit mem attribs mask).1[a]?
      = if a < apv.toNat then
          some (fun i => if laneActive mask i then mem (cellAddr attribs apv i.val a)
                         else uninit a i)
        else none := by
  simp only [gatherAttribs, VertexShader.new, gatherLoop_get]
  by_cases h : a < apv.toNat
  · have h' : 0 ≤ a ∧ a < 0 + apv.toNat := by omega
    simp only [h', and_self, if_true, List.length_map, List.length_range, h, Nat.sub_zero]
    congr 1
    funext i
    rw [← basePtr_addr]
    rfl
  · have h' : ¬ (0 ≤ a ∧ a < 0 + apv.toNat) := by omega
    simp [h', h]
    omega

theorem gatherAttribs_congr (apv ppv : Int) (uninit : Nat → vecf16 F) (mem1 mem2 : Nat → F)
    (attribs mask : Nat)
    (h : ∀ a : Nat, a < apv.toNat → ∀ i : Fin 16, laneActive mask i = true →
      mem1 (cellAddr attribs apv i.val a) = mem2 (cellAddr attribs apv i.val a)) :
    (gatherAttribs (VertexShader.new apv ppv) uninit mem1 attribs mask).1
      = (gatherAttribs (VertexShader.new apv ppv) uninit mem2 attribs mask).1 := by
  apply List.ext_getElem?
  intro a
  rw [gatherAttribs_get, gatherAttribs_get]
  by_cases ha : a < apv.toNat
  · simp only [ha, if_true, Option.some.injEq]
    funext i
    by_cases hi : laneActive mask i = true
    · simp only [hi, if_true, h a ha i hi]
    · simp [hi]
  · simp only [ha, if_false]

theorem mem_reads (apv : Int) (attribs mask : Nat) (r : Nat) :
    r ∈ gatherReads mask apv.toNat (basePtr apv attribs) ↔
      ∃ a, a < apv.toNat ∧ ∃ i : Fin 16, laneActive mask i = true ∧
        r = cellAddr attribs apv i.val a := by
  simp only [mem_gatherReads, basePtr_addr]

/-! ## Sequences of stores -/

theorem applyWrites_append (l1 l2 : List (Nat × F)) (mem : Nat → F) :
    applyWrites (l1 ++ l2) mem = applyWrites l2 (applyWrites l1 mem) := by
  induction l1 generalizing mem with
  | nil => rfl
  | cons kv l ih => simp [applyWrites, ih]

theorem applyWrites_eq (l : List (Nat × F)) (mem : Nat → F) (a : Nat) (v : F)
    (hall : ∀ x, (a, x) ∈ l → x = v) (hex : (∃ x, (a, x) ∈ l) ∨ mem a = v) :
    applyWrites l mem a = v := by
  induction l generalizing mem with
  | nil =>
    rcases hex with ⟨x, hx⟩ | h
    · simp at hx
    · exact h
  | cons kv l ih =>
    simp only [applyWrites]
    apply ih
    · intro x hx; exact hall x (List.mem_cons_of_mem _ hx)
    · by_cases hk : kv.1 = a
      · right
        have : kv = (a, kv.2) := by rw [← hk]
        have := hall kv.2 (by rw [← this]; exact List.mem_cons_self _ _)
        rw [← hk, Function.update_same, this]
      · rcases hex with ⟨x, hx⟩ | h
        · rcases List.mem_cons.mp hx with h' | h'
          · exact absurd (by rw [← h']) hk
          · exact Or.inl ⟨x, h'⟩
        · right; rw [Function.update_noteq (Ne.symm hk)]; exact h

theorem applyWrites_not_mem (l : List (Nat × F)) (mem : Nat → F) (a : Nat)
    (h : ∀ x, (a, x) ∉ l) : applyWrites l mem a = mem a :=
  applyWrites_eq l mem a (mem a) (fun x hx => absurd hx (h x)) (Or.inr rfl)

theorem applyWrites_congr (l : List (Nat × F)) (m1 m2 : Nat → F) (a : Nat)
    (h : (∃ x, (a, x) ∈ l) ∨ m1 a = m2 a) : applyWrites l m1 a = applyWrites l m2 a := by
  induction l generalizing m1 m2 with
  | nil =>
    rcases h with ⟨x, hx⟩ | h
    · simp at hx
    · exact h
  | cons kv l ih =>
    simp only [applyWrites]
    apply ih
    by_cases hk : kv.1 = a
    · right; rw [← hk, Function.update_same, Function.update_same]
    · rcases h with ⟨x, hx⟩ | h
      · rcases List.mem_cons.mp hx with h' | h'
        · exact absurd (by rw [← h']) hk
        · exact Or.inl ⟨x, h'⟩
      · right
        rw [Function.update_noteq (Ne.symm hk), Function.update_noteq (Ne.symm hk)]
        exact h

theorem applyWrites_idem (l : List (Nat × F)) (mem : Nat → F) :
    applyWrites l (applyWrites l mem) = applyWrites l mem := by
  funext a
  by_cases h : ∃ x, (a, x) ∈ l
  · exact applyWrites_congr l _ _ a (Or.inl h)
  · rw [applyWrites_not_mem l (applyWrites l mem) a (fun x hx => h ⟨x, hx⟩)]

/-- The fields of the machine a successful run returns. -/
theorem writes_mem_iff (l : List (Nat × F)) (a : Nat) :
    a ∈ l.map Prod.fst ↔ ∃ x, (a, x) ∈ l := by
  simp only [List.mem_map, Prod.exists, exists_and_right, exists_eq_right]

/-! ## The scatter loop -/

theorem foldl_storeLane (ptr : veci16) (val : vecf16 F) (mask : Nat) (l : List (Fin 16))
    (m : Machine F) :
    l.foldl (storeLane ptr val mask) m
      = ⟨applyWrites ((l.filter (laneActive mask)).map (fun i => (addrOf (ptr i), val i))) m.mem,
         m.reads,
         m.writes ++ (l.filter (laneActive mask)).map (fun i => addrOf (ptr i))⟩ := by
  induction l generalizing m with
  | nil => simp [applyWrites]
  | cons i l ih =>
    simp only [List.foldl_cons, ih]
    by_cases h : laneActive mask i = true
    · simp [storeLane, h, List.filter_cons, applyWrites]
    · simp [storeLane, h, List.filter_cons]

theorem scatter_eq (m : Machine F) (ptr : veci16) (val : vecf16 F) (mask : Nat) :
    scatter_storef_masked m ptr val mask
      = ⟨applyWrites (scatterPairs ptr val mask) m.mem, m.reads,
         m.writes ++ (scatterPairs ptr val mask).map Prod.fst⟩ := by
  unfold scatter_storef_masked scatterPairs activeLanes
  rw [foldl_storeLane]
  simp [Function.comp_def]

theorem scatterLoop_eq (mask : Nat) (pp : List (vecf16 F)) (n param : Nat) (ptr : veci16)
    (m : Machine F) (hlen : param + n ≤ pp.length) :
    scatterLoop mask pp n param ptr m
      = some (advance ptr n,
          ⟨applyWrites (loopPairs mask pp n param ptr) m.mem, m.reads,
           m.writes ++ (loopPairs mask pp n param ptr).map Prod.fst⟩) := by
  induction n generalizing param ptr m with
  | zero => simp [scatterLoop, loopPairs, applyWrites, advance]
  | succ n ih =>
    have hp : param < pp.length := by omega
    simp only [scatterLoop, loopPairs, List.getElem?_eq_getElem hp]
    rw [ih (param + 1) _ _ (by omega), scatter_eq]
    simp [applyWrites_append, advance]

theorem mem_loopPairs (mask : Nat) (pp : List (vecf16 F)) (n param : Nat) (ptr : veci16)
    (a : Nat) (x : F) :
    (a, x) ∈ loopPairs mask pp n param ptr ↔
      ∃ t, t < n ∧ ∃ v, pp[param + t]? = some v ∧
        ∃ i : Fin 16, laneActive mask i = true ∧ a = addrOf (advance ptr t i) ∧ x = v i := by
  induction n generalizing param ptr with
  | zero => simp [loopPairs]
  | succ n ih =>
    simp only [loopPairs, List.mem_append, ih]
    constructor
    · rintro (h | ⟨t, ht, v, hv, i, hi, rfl, rfl⟩)
      · cases hv : pp[param]? with
        | none => simp [hv] at h
        | some v =>
          simp only [hv, scatterPairs, List.mem_map, activeLanes, List.mem_filter,
            List.mem_finRange, true_and, Prod.mk.injEq] at h
          obtain ⟨i, hi, h1, h2⟩ := h
          exact ⟨0, by omega, v, by simpa using hv, i, hi, h1.symm, h2.symm⟩
      · exact ⟨t + 1, by omega, v, by rw [← hv]; congr 1; omega, i, hi, rfl, rfl⟩
    · rintro ⟨t, ht, v, hv, i, hi, rfl, rfl⟩
      cases t with
      | zero =>
        left
        simp only [Nat.add_zero] at hv
        simp only [hv, scatterPairs, List.mem_map, activeLanes, List.mem_filter,
          List.mem_finRange, true_and, Prod.mk.injEq]
        exact ⟨i, hi, rfl, rfl⟩
      | succ t =>
        right
        exact ⟨t, by omega, v, by rw [← hv]; congr 1; omega, i, hi, rfl, rfl⟩

theorem loopPairs_length (mask : Nat) (pp : List (vecf16 F)) (n param : Nat) (ptr : veci16)
    (hlen : param + n ≤ pp.length) :
    (loopPairs mask pp n param ptr).length = n * (activeLanes mask).length := by
  induction n generalizing param ptr with
  | zero => simp [loopPairs]
  | succ n ih =>
    have hp : param < pp.length := by omega
    simp [loopPairs, List.getElem?_eq_getElem hp, scatterPairs, ih (param + 1) _ (by omega)]
    ring

theorem mem_writes (ppv : Int) (outParams mask : Nat) (d : List (vecf16 F)) (n : Nat)
    (a : Nat) (x : F) :
    (a, x) ∈ loopPairs mask d n 0 (basePtr ppv outParams) ↔
      ∃ p, p < n ∧ ∃ v, d[p]? = some v ∧
        ∃ i : Fin 16, laneActive mask i = true ∧ a = cellAddr outParams ppv i.val p ∧ x = v i := by
  simp only [mem_loopPairs, basePtr_addr, Nat.zero_add]

/-- Which stores the scatter loop performs, for a mask that activates the first
`n` lanes and a buffer that fits in the address space. -/
theorem mem_writes_fit (ppv : Int) (outParams mask : Nat) (d : List (vecf16 F)) (n : Nat)
    (hact : ∀ i : Fin 16, laneActive mask i = true ↔ i.val < n)
    (hfit : outParams + 4 * (ppv.toNat * n) ≤ 4294967296)
    (a : Nat) (x : F) :
    (a, x) ∈ loopPairs mask d ppv.toNat 0 (basePtr ppv outParams) ↔
      ∃ i : Fin 16, ∃ p v, i.val < n ∧ p < ppv.toNat ∧ d[p]? = some v ∧
        a = outParams + 4 * (i.val * ppv.toNat + p) ∧ x = v i := by
  rw [mem_writes]
  constructor
  · rintro ⟨p, hp, v, hv, i, hi, rfl, rfl⟩
    have hi' := (hact i).1 hi
    exact ⟨i, p, v, hi', hp, hv, cellAddr_fit outParams ppv n i.val p hfit hi' hp, rfl⟩
  · rintro ⟨i, p, v, hi, hp, hv, rfl, rfl⟩
    exact ⟨p, hp, v, hv, i, (hact i).2 hi,
      (cellAddr_fit outParams ppv n i.val p hfit hi hp).symm, rfl⟩

/-- Which cells the scatter loop writes. -/
theorem mem_writes_addr (ppv : Int) (outParams mask : Nat) (d : List (vecf16 F)) (n : Nat)
    (hact : ∀ i : Fin 16, laneActive mask i = true ↔ i.val < n)
    (hdl : d.length = ppv.toNat) (hn : n ≤ 16)
    (hfit : outParams + 4 * (ppv.toNat * n) ≤ 4294967296) (a : Nat) :
    (∃ x, (a, x) ∈ loopPairs mask d ppv.toNat 0 (basePtr ppv outParams)) ↔
      ∃ i p : Nat, i < n ∧ p < ppv.toNat ∧ a = outParams + 4 * (i * ppv.toNat + p) := by
  constructor
  · rintro ⟨x, hx⟩
    obtain ⟨i, p, v, hi, hp', -, he, -⟩ :=
      (mem_writes_fit ppv outParams mask d n hact hfit _ _).1 hx
    exact ⟨i.val, p, hi, hp', he⟩
  · rintro ⟨i, p, hi, hp', he⟩
    have hv : p < d.length := by omega
    exact ⟨d[p] ⟨i, by omega⟩,
      (mem_writes_fit ppv outParams mask d n hact hfit _ _).2
        ⟨⟨i, by omega⟩, p, d[p], hi, hp', List.getElem?_eq_getElem hv, he, rfl⟩⟩

/-- The float held after the scatter loop by the cell of parameter `p` of an
active record. -/
theorem applyWrites_at (ppv : Int) (outParams mask : Nat) (d : List (vecf16 F)) (n : Nat)
    (mem : Nat → F) (hact : ∀ i : Fin 16, laneActive mask i = true ↔ i.val < n)
    (hfit : outParams + 4 * (ppv.toNat * n) ≤ 4294967296)
    (i : Fin 16) (p : Nat) (v : vecf16 F) (hi : i.val < n)
    (hp : p < ppv.toNat) (hv : d[p]? = some v) :
    applyWrites (loopPairs mask d ppv.toNat 0 (basePtr ppv outParams)) mem
      (outParams + 4 * (i.val * ppv.toNat + p)) = v i := by
  apply applyWrites_eq
  · intro x hx
    obtain ⟨j, q, w, hj, hq, hw, he, rfl⟩ :=
      (mem_writes_fit ppv outParams mask d n hact hfit _ _).1 hx
    have he' : i.val * ppv.toNat + p = j.val * ppv.toNat + q := by omega
    obtain ⟨hij, hpq⟩ := record_inj hp hq he'
    have : i = j := Fin.ext hij
    subst this; subst hpq
    rw [hv] at hw
    cases hw
    rfl
  · exact Or.inl ⟨v i, (mem_writes_fit ppv outParams mask d n hact hfit _ _).2
      ⟨i, p, v, hi, hp, hv, rfl, rfl⟩⟩

/-! ## The divide step and the whole call -/

theorem perspectiveDivide_some [One F] [Mul F] [Div F] (k : ParamIndices)
    (pp : List (vecf16 F)) (hx : k.kParamX < pp.length) (hy : k.kParamY < pp.length)
    (hw : k.kParamW < pp.length) :
    ∃ d, perspectiveDivide k pp = some d ∧ d.length = pp.length ∧
      (∀ p, p ≠ k.kParamX → p ≠ k.kParamY → d[p]? = pp[p]?) ∧
      (k.Distinct →
        d[k.kParamX]? = some (vecf16.mul (pp[k.kParamX]) (vecf16.div (splatf 1) (pp[k.kParamW]))) ∧
        d[k.kParamY]? = some (vecf16.mul (pp[k.kParamY]) (vecf16.div (splatf 1) (pp[k.kParamW])))) := by
  have hy' : k.kParamY < (pp.set k.kParamX
      (vecf16.mul (pp[k.kParamX]) (vecf16.div (splatf 1) (pp[k.kParamW])))).length := by
    simpa using hy
  refine ⟨(pp.set k.kParamX
      (vecf16.mul (pp[k.kParamX]) (vecf16.div (splatf 1) (pp[k.kParamW])))).set k.kParamY
      (vecf16.mul ((pp.set k.kParamX
        (vecf16.mul (pp[k.kParamX]) (vecf16.div (splatf 1) (pp[k.kParamW]))))[k.kParamY])
        (vecf16.div (splatf 1) (pp[k.kParamW]))), by
    simp only [perspectiveDivide, List.getElem?_eq_getElem hw, List.getElem?_eq_getElem hx,
      List.getElem?_eq_getElem hy'], by simp, ?_, ?_⟩
  · intro p h1 h2
    rw [List.getElem?_set_ne (Ne.symm h2), List.getElem?_set_ne (Ne.symm h1)]
  · rintro ⟨hxy, hxw, hyw⟩
    constructor
    · rw [List.getElem?_set_ne (Ne.symm hxy), List.getElem?_set_self hx]
    · rw [List.getElem?_set_self hy']
      congr 2
      rw [List.getElem_set_ne hxy]

theorem shadedParams_length (apv ppv : Int) (shade : Shade F) (uninit : Nat → vecf16 F)
    (mem : Nat → F) (attribs mask : Nat) :
    (shadedParams apv ppv shade uninit mem attribs mask).length = ppv.toNat := by
  simp [shadedParams]

theorem shadedParams_get (apv ppv : Int) (shade : Shade F) (uninit : Nat → vecf16 F)
    (mem : Nat → F) (attribs mask : Nat) (p : Nat) (hp : p < ppv.toNat) :
    (shadedParams apv ppv shade uninit mem attribs mask)[p]?
      = some (shade (gatherAttribs (VertexShader.new apv ppv) uninit mem attribs mask).1 mask p) := by
  simp [shadedParams, hp]

theorem processVertices_eq [One F] [Mul F] [Div F] (k : ParamIndices) (apv ppv : Int)
    (shade : Shade F) (uninit : Nat → vecf16 F) (mem : Nat → F) (outParams attribs : Nat)
    (numVertices : Int) (mask : Nat) (d : List (vecf16 F))
    (hmask : computeMask numVertices = some mask)
    (hdiv : perspectiveDivide k (shadedParams apv ppv shade uninit mem attribs mask) = some d)
    (hlen : d.length = ppv.toNat) :
    processVertices k (VertexShader.new apv ppv) shade uninit mem outParams attribs numVertices
      = some ⟨applyWrites (loopPairs mask d ppv.toNat 0 (basePtr ppv outParams)) mem,
              gatherReads mask apv.toNat (basePtr apv attribs),
              (loopPairs mask d ppv.toNat 0 (basePtr ppv outParams)).map Prod.fst⟩ := by
  unfold shadedParams at hdiv
  simp only [processVertices, hmask]
  have e : (VertexShader.new apv ppv).fParamsPerVertex = ppv := rfl
  rw [e, hdiv]
  simp only []
  rw [scatterLoop_eq _ _ _ _ _ _ (by omega), gatherAttribs_machine]
  simp [VertexShader.new, basePtr]

/-- Every run with a non-negative vertex count and in-range reserved indices
returns, and its result is the write sequence applied to the initial memory. -/
theorem processVertices_run [One F] [Mul F] [Div F] (k : ParamIndices) (apv ppv : Int)
    (shade : Shade F) (uninit : Nat → vecf16 F) (mem : Nat → F) (outParams attribs : Nat)
    (numVertices : Int) (h0 : 0 ≤ numVertices) (hk : k.Reserved) (hp : 4 ≤ ppv) :
    ∃ mask d, computeMask numVertices = some mask ∧ mask < 65536 ∧
      (∀ i : Fin 16, laneActive mask i = true ↔ i.val < (min numVertices 16).toNat) ∧
      perspectiveDivide k (shadedParams apv ppv shade uninit mem attribs mask) = some d ∧
      d.length = ppv.toNat ∧
      processVertices k (VertexShader.new apv ppv) shade uninit mem outParams attribs numVertices
        = some ⟨applyWrites (loopPairs mask d ppv.toNat 0 (basePtr ppv outParams)) mem,
                gatherReads mask apv.toNat (basePtr apv attribs),
                (loopPairs mask d ppv.toNat 0 (basePtr ppv outParams)).map Prod.fst⟩ := by
  obtain ⟨mask, hmask, hlt, hact⟩ := computeMask_count numVertices h0
  obtain ⟨hx, hy, hw⟩ := hk
  have hl := shadedParams_length apv ppv shade uninit mem attribs mask
  obtain ⟨d, hd, hdl, -, -⟩ := perspectiveDivide_some k
    (shadedParams apv ppv shade uninit mem attribs mask)
    (by rw [hl]; omega) (by rw [hl]; omega) (by rw [hl]; omega)
  exact ⟨mask, d, hmask, hlt, hact, hd, hdl.trans hl,
    processVertices_eq k apv ppv shade uninit mem outParams attribs numVertices mask d hmask hd
      (hdl.trans hl)⟩

/-- The scattered values of the X and Y parameters. -/
theorem written_divided [One F] [Mul F] [Div F] (k : ParamIndices) (apv ppv : Int)
    (shade : Shade F) (uninit : Nat → vecf16 F) (mem : Nat → F) (outParams attribs : Nat)
    (numVertices : Int) (i : Fin 16)
    (h0 : 0 ≤ numVertices) (h16 : numVertices ≤ 16) (hk : k.Reserved) (hd : k.Distinct)
    (hp : 4 ≤ ppv) (hfit : outParams + 4 * (ppv.toNat * numVertices.toNat) ≤ 4294967296)
    (hi : (i.val : Int) < numVertices) :
    ∃ mask r, computeMask numVertices = some mask ∧
      processVertices k (VertexShader.new apv ppv) shade uninit mem outParams attribs
        numVertices = some r ∧
      RecordXYW k r.mem outParams ppv i.val
        (shade (gatherAttribs (VertexShader.new apv ppv) uninit mem attribs mask).1 mask
            k.kParamX i *
          (1 / shade (gatherAttribs (VertexShader.new apv ppv) uninit mem attribs mask).1 mask
            k.kParamW i))
        (shade (gatherAttribs (VertexShader.new apv ppv) uninit mem attribs mask).1 mask
            k.kParamY i *
          (1 / shade (gatherAttribs (VertexShader.new apv ppv) uninit mem attribs mask).1 mask
            k.kParamW i))
        (shade (gatherAttribs (VertexShader.new apv ppv) uninit mem attribs mask).1 mask
            k.kParamW i) := by
  obtain ⟨mask, hmask, -, hact⟩ := computeMask_count numVertices h0
  have hn : (min numVertices 16).toNat = numVertices.toNat := by omega
  rw [hn] at hact
  have hk' := hk
  obtain ⟨hx, hy, hw⟩ := hk
  have hl := shadedParams_length apv ppv shade uninit mem attribs mask
  have hxl : k.kParamX < (shadedParams apv ppv shade uninit mem attribs mask).length := by
    rw [hl]; omega
  have hyl : k.kParamY < (shadedParams apv ppv shade uninit mem attribs mask).length := by
    rw [hl]; omega
  have hwl : k.kParamW < (shadedParams apv ppv shade uninit mem attribs mask).length := by
    rw [hl]; omega
  obtain ⟨d, hdiv, hdl, hrest, hxy⟩ := perspectiveDivide_some k
    (shadedParams apv ppv shade uninit mem attribs mask) hxl hyl hwl
  obtain ⟨hdx, hdy⟩ := hxy hd
  have hrun := processVertices_eq k apv ppv shade uninit mem outParams attribs numVertices
    mask d hmask hdiv (hdl.trans hl)
  have gx := shadedParams_get apv ppv shade uninit mem attribs mask k.kParamX (by omega)
  have gy := shadedParams_get apv ppv shade uninit mem attribs mask k.kParamY (by omega)
  have gw := shadedParams_get apv ppv shade uninit mem attribs mask k.kParamW (by omega)
  rw [List.getElem?_eq_getElem hxl] at gx
  rw [List.getElem?_eq_getElem hyl] at gy
  rw [List.getElem?_eq_getElem hwl] at gw
  simp only [Option.some.injEq] at gx gy gw
  rw [gx, gw] at hdx
  rw [gy, gw] at hdy
  refine ⟨mask, _, hmask, hrun, ?_, ?_, ?_⟩
  · exact applyWrites_at ppv outParams mask d numVertices.toNat mem hact hfit i k.kParamX _
      (by omega) (by omega) hdx
  · exact applyWrites_at ppv outParams mask d numVertices.toNat mem hact hfit i k.kParamY _
      (by omega) (by omega) hdy
  · apply applyWrites_at ppv outParams mask d numVertices.toNat mem hact hfit i k.kParamW _
      (by omega) (by omega)
    rw [hrest k.kParamW (Ne.symm hd.2.1) (Ne.symm hd.2.2),
      shadedParams_get _ _ _ _ _ _ _ _ (by omega)]

theorem loopPairs_fst (mask : Nat) (pp : List (vecf16 F)) (n param : Nat) (ptr : veci16)
    (hlen : param + n ≤ pp.length) :
    (loopPairs mask pp n param ptr).map Prod.fst = gatherReads mask n ptr := by
  induction n generalizing param ptr with
  | zero => simp [loopPairs, gatherReads]
  | succ n ih =>
    have hp : param < pp.length := by omega
    simp only [loopPairs, gatherReads, List.getElem?_eq_getElem hp, List.map_append,
      ih (param + 1) _ (by omega), scatterPairs, List.map_map]
    rfl

/-- Two lists of lane vectors agree at lane `i`. -/
theorem set_lane (l1 l2 : List (vecf16 F)) (i : Fin 16) (j : Nat) (a1 a2 : vecf16 F)
    (h : ∀ (p : Nat) (v1 v2 : vecf16 F), l1[p]? = some v1 → l2[p]? = some v2 → v1 i = v2 i) (ha : a1 i = a2 i) :
    ∀ (p : Nat) (v1 v2 : vecf16 F), (l1.set j a1)[p]? = some v1 → (l2.set j a2)[p]? = some v2 → v1 i = v2 i := by
  intro p v1 v2 h1 h2
  rw [List.getElem?_set] at h1 h2
  by_cases hj : j = p
  · simp only [hj, if_true] at h1 h2
    split at h1
    · split at h2
      · cases h1; cases h2; exact ha
      · cases h2
    · cases h1
  · simp only [hj, if_false] at h1 h2
    exact h p v1 v2 h1 h2

theorem perspectiveDivide_inv [One F] [Mul F] [Div F] (k : ParamIndices)
    (pp d : List (vecf16 F)) (h : perspectiveDivide k pp = some d) :
    ∃ w x y, pp[k.kParamW]? = some w ∧ pp[k.kParamX]? = some x ∧
      (pp.set k.kParamX (vecf16.mul x (vecf16.div (splatf 1) w)))[k.kParamY]? = some y ∧
      d = (pp.set k.kParamX (vecf16.mul x (vecf16.div (splatf 1) w))).set k.kParamY
        (vecf16.mul y (vecf16.div (splatf 1) w)) := by
  unfold perspectiveDivide at h
  cases hw : pp[k.kParamW]? with
  | none => simp [hw] at h
  | some w =>
    cases hx : pp[k.kParamX]? with
    | none => simp [hw, hx] at h
    | some x =>
      cases hy : (pp.set k.kParamX (vecf16.mul x (vecf16.div (splatf 1) w)))[k.kParamY]? with
      | none => simp [hw, hx, hy] at h
      | some y =>
        simp only [hw, hx, hy, Option.some.injEq] at h
        exact ⟨w, x, y, rfl, rfl, hy, h.symm⟩

/-- The divide step acts lane by lane. -/
theorem perspectiveDivide_lane [One F] [Mul F] [Div F] (k : ParamIndices)
    (pp1 pp2 d1 d2 : List (vecf16 F)) (i : Fin 16)
    (h1 : perspectiveDivide k pp1 = some d1) (h2 : perspectiveDivide k pp2 = some d2)
    (h : ∀ (p : Nat) (v1 v2 : vecf16 F), pp1[p]? = some v1 → pp2[p]? = some v2 → v1 i = v2 i) :
    ∀ (p : Nat) (v1 v2 : vecf16 F), d1[p]? = some v1 → d2[p]? = some v2 → v1 i = v2 i := by
  obtain ⟨w1, x1, y1, hw1, hx1, hy1, rfl⟩ := perspectiveDivide_inv k pp1 d1 h1
  obtain ⟨w2, x2, y2, hw2, hx2, hy2, rfl⟩ := perspectiveDivide_inv k pp2 d2 h2
  have ew : w1 i = w2 i := h _ _ _ hw1 hw2
  have ex : x1 i = x2 i := h _ _ _ hx1 hx2
  have hs := set_lane pp1 pp2 i k.kParamX
    (vecf16.mul x1 (vecf16.div (splatf 1) w1)) (vecf16.mul x2 (vecf16.div (splatf 1) w2)) h
    (by simp only [vecf16.mul, vecf16.div, splatf, ew, ex])
  have ey : y1 i = y2 i := hs _ _ _ hy1 hy2
  exact set_lane _ _ i k.kParamY _ _ hs
    (by simp only [vecf16.mul, vecf16.div, splatf, ew, ey])

theorem loopPairs_congr (mask : Nat) (d1 d2 : List (vecf16 F)) (n param : Nat) (ptr : veci16)
    (h1 : param + n ≤ d1.length) (h2 : param + n ≤ d2.length)
    (h : ∀ (i : Fin 16), laneActive mask i = true →
      ∀ (p : Nat) (v1 v2 : vecf16 F), d1[p]? = some v1 → d2[p]? = some v2 → v1 i = v2 i) :
    loopPairs mask d1 n param ptr = loopPairs mask d2 n param ptr := by
  induction n generalizing param ptr with
  | zero => simp [loopPairs]
  | succ n ih =>
    have hp1 : param < d1.length := by omega
    have hp2 : param < d2.length := by omega
    simp only [loopPairs, List.getElem?_eq_getElem hp1, List.getElem?_eq_getElem hp2,
      ih (param + 1) _ (by omega) (by omega)]
    congr 1
    unfold scatterPairs
    apply List.map_congr_left
    intro i hi
    have hact : laneActive mask i = true := by
      unfold activeLanes at hi
      exact (List.mem_filter.mp hi).2
    rw [h i hact param _ _ (List.getElem?_eq_getElem hp1) (List.getElem?_eq_getElem hp2)]

theorem gatherLoop_length (mask : Nat) (uninit : Nat → vecf16 F) (n a : Nat) (ptr : veci16)
    (pa : List (vecf16 F)) (m : Machine F) :
    (gatherLoop mask uninit n a ptr pa m).2.1.length = pa.length := by
  induction n generalizing a ptr pa m with
  | zero => rfl
  | succ n ih => simp only [gatherLoop, ih, List.length_set]

theorem gatherAttribs_length (self : VertexShader) (uninit : Nat → vecf16 F) (mem : Nat → F)
    (attribs mask : Nat) :
    (gatherAttribs self uninit mem attribs mask).1.length = self.fAttribsPerVertex.toNat := by
  simp [gatherAttribs, gatherLoop_length]

/-- Runs whose shaded parameters agree on the active lanes perform the same stores. -/
theorem run_pairs_congr [One F] [Mul F] [Div F] (k : ParamIndices) (apv ppv : Int)
    (shade1 shade2 : Shade F) (uninit1 uninit2 : Nat → vecf16 F) (mem1 mem2 : Nat → F)
    (outParams attribs : Nat) (numVertices : Int)
    (h0 : 0 ≤ numVertices) (hk : k.Reserved) (hp : 4 ≤ ppv)
    (h : ∀ mask, computeMask numVertices = some mask → ∀ p, p < ppv.toNat → ∀ i : Fin 16,
      (i.val : Int) < numVertices →
      shade1 (gatherAttribs (VertexShader.new apv ppv) uninit1 mem1 attribs mask).1 mask p i
        = shade2 (gatherAttribs (VertexShader.new apv ppv) uninit2 mem2 attribs mask).1
            mask p i) :
    ∃ l r1 r2,
      processVertices k (VertexShader.new apv ppv) shade1 uninit1 mem1 outParams attribs
        numVertices = some r1 ∧
      processVertices k (VertexShader.new apv ppv) shade2 uninit2 mem2 outParams attribs
        numVertices = some r2 ∧
      r1.mem = applyWrites l mem1 ∧ r2.mem = applyWrites l mem2 ∧
      r1.writes = l.map Prod.fst ∧ r2.writes = l.map Prod.fst := by
  obtain ⟨mask, d1, hmask, -, hact, hdiv1, hdl1, hrun1⟩ := processVertices_run k apv ppv shade1
    uninit1 mem1 outParams attribs numVertices h0 hk hp
  obtain ⟨mask2, d2, hmask2, -, -, hdiv2, hdl2, hrun2⟩ := processVertices_run k apv ppv shade2
    uninit2 mem2 outParams attribs numVertices h0 hk hp
  have hm : mask2 = mask := by
    rw [hmask] at hmask2
    exact (Option.some.inj hmask2).symm
  subst hm
  have hpairs : loopPairs mask2 d1 ppv.toNat 0 (basePtr ppv outParams)
      = loopPairs mask2 d2 ppv.toNat 0 (basePtr ppv outParams) := by
    apply loopPairs_congr _ _ _ _ _ _ (by omega) (by omega)
    intro i hi
    have hi' : (i.val : Int) < numVertices := by
      have := (hact i).1 hi
      omega
    apply perspectiveDivide_lane k _ _ d1 d2 i hdiv1 hdiv2
    intro p v1 v2 hv1 hv2
    have hpl : p < ppv.toNat := by
      have := (List.getElem?_eq_some_iff.mp hv1).1
      rwa [shadedParams_length] at this
    rw [shadedParams_get _ _ _ _ _ _ _ _ hpl] at hv1 hv2
    cases hv1; cases hv2
    exact h mask2 hmask p hpl i hi'
  refine ⟨_, _, _, hrun1, hrun2, rfl, ?_, rfl, ?_⟩
  · rw [hpairs]
  · rw [hpairs]

theorem lane_addr_fit (size : Int) (base : Nat) (hfit : base + 4 * (size.toNat * 16) ≤ 4294967296)
    (i : Fin 16) (p : Nat) (hp : p < size.toNat) :
    addrOf (advance (basePtr size base) p i) = base + 4 * i.val * size.toNat + 4 * p := by
  rw [basePtr_addr, cellAddr_fit base size 16 i.val p hfit i.isLt hp]
  ring

theorem lane_addr_inj (size : Nat) (base : Nat) (i j : Fin 16) (p q : Nat) (hp : p < size)
    (hq : q < size) (h : base + 4 * i.val * size + 4 * p = base + 4 * j.val * size + 4 * q) :
    i = j ∧ p = q := by
  have e1 : 4 * i.val * size = 4 * (i.val * size) := by ring
  have e2 : 4 * j.val * size = 4 * (j.val * size) := by ring
  have h' : i.val * size + p = j.val * size + q := by omega
  obtain ⟨h1, h2⟩ := record_inj hp hq h'
  exact ⟨Fin.ext h1, h2⟩

theorem activeLanes_nodup (mask : Nat) : (activeLanes mask).Nodup :=
  List.Nodup.filter _ (List.nodup_finRange 16)

theorem mem_activeLanes (mask : Nat) (i : Fin 16) :
    i ∈ activeLanes mask ↔ laneActive mask i = true := by
  simp [activeLanes]

theorem gatherReads_nodup (mask : Nat) (n : Nat) (ptr : veci16)
    (hinj : ∀ (t t' : Nat) (i i' : Fin 16), t < n → t' < n →
      addrOf (advance ptr t i) = addrOf (advance ptr t' i') → t = t' ∧ i = i') :
    (gatherReads mask n ptr).Nodup := by
  induction n generalizing ptr with
  | zero => simp [gatherReads]
  | succ n ih =>
    simp only [gatherReads]
    rw [List.nodup_append]
    refine ⟨?_, ?_, ?_⟩
    · apply List.Nodup.map_on _ (activeLanes_nodup mask)
      intro i _ i' _ h
      exact (hinj 0 0 i i' (by omega) (by omega) h).2
    · apply ih
      intro t t' i i' ht ht' h
      have := hinj (t + 1) (t' + 1) i i' (by omega) (by omega) h
      exact ⟨by omega, this.2⟩
    · intro a h1 h2
      obtain ⟨i, -, rfl⟩ := List.mem_map.mp h1
      obtain ⟨t, ht, i', -, h⟩ := (mem_gatherReads mask n _ _).1 h2
      have := hinj 0 (t + 1) i i' (by omega) (by omega) h
      omega

theorem applyWrites_perm (l l' : List (Nat × F)) (mem : Nat → F)
    (hc : ∀ (a : Nat) (x y : F), (a, x) ∈ l → (a, y) ∈ l → x = y) (hp : l'.Perm l) :
    applyWrites l' mem = applyWrites l mem := by
  funext a
  by_cases h : ∃ x, (a, x) ∈ l
  · obtain ⟨x, hx⟩ := h
    rw [applyWrites_eq l mem a x (fun y hy => hc a y x hy hx) (Or.inl ⟨x, hx⟩)]
    exact applyWrites_eq l' mem a x (fun y hy => hc a y x (hp.mem_iff.1 hy) hx)
      (Or.inl ⟨x, hp.mem_iff.2 hx⟩)
  · rw [applyWrites_not_mem l mem a (fun x hx => h ⟨x, hx⟩)]
    exact applyWrites_not_mem l' mem a (fun x hx => h ⟨x, hp.mem_iff.1 hx⟩)

theorem loopPairs_consistent (mask : Nat) (pp : List (vecf16 F)) (n : Nat) (ptr : veci16)
    (hinj : ∀ (t t' : Nat) (i i' : Fin 16), t < n → t' < n →
      addrOf (advance ptr t i) = addrOf (advance ptr t' i') → t = t' ∧ i = i')
    (a : Nat) (x y : F) (hx : (a, x) ∈ loopPairs mask pp n 0 ptr)
    (hy : (a, y) ∈ loopPairs mask pp n 0 ptr) : x = y := by
  obtain ⟨t, ht, v, hv, i, -, ha, rfl⟩ := (mem_loopPairs mask pp n 0 ptr a x).1 hx
  obtain ⟨t', ht', v', hv', i', -, ha', rfl⟩ := (mem_loopPairs mask pp n 0 ptr a y).1 hy
  obtain ⟨e1, e2⟩ := hinj t t' i i' ht ht' (ha.symm.trans ha')
  subst e1; subst e2
  rw [hv] at hv'
  cases hv'
  rfl

theorem basePtr_inj (size : Int) (base : Nat)
    (hfit : base + 4 * (size.toNat * 16) ≤ 4294967296) (t t' : Nat) (i i' : Fin 16)
    (ht : t < size.toNat) (ht' : t' < size.toNat)
    (h : addrOf (advance (basePtr size base) t i) = addrOf (advance (basePtr size base) t' i')) :
    t = t' ∧ i = i' := by
  rw [lane_addr_fit size base hfit i t ht, lane_addr_fit size base hfit i' t' ht'] at h
  obtain ⟨h1, h2⟩ := lane_addr_inj size.toNat base i i' t t' ht ht' h
  exact ⟨h2, h1⟩

/-- The scattered value of a parameter the divide step leaves alone. -/
theorem written_plain [One F] [Mul F] [Div F] (k : ParamIndices) (apv ppv : Int)
    (shade : Shade F) (uninit : Nat → vecf16 F) (mem : Nat → F) (outParams attribs : Nat)
    (numVertices : Int) (i : Fin 16) (p : Nat)
    (h0 : 0 ≤ numVertices) (h16 : numVertices ≤ 16) (hk : k.Reserved) (hp : 4 ≤ ppv)
    (hfit : outParams + 4 * (ppv.toNat * numVertices.toNat) ≤ 4294967296)
    (hi : (i.val : Int) < numVertices) (hpp : (p : Int) < ppv)
    (hpx : p ≠ k.kParamX) (hpy : p ≠ k.kParamY) :
    ∃ mask r, computeMask numVertices = some mask ∧
      processVertices k (VertexShader.new apv ppv) shade uninit mem outParams attribs
        numVertices = some r ∧
      r.mem (outParams + 4 * (i.val * ppv.toNat + p))
        = shade (gatherAttribs (VertexShader.new apv ppv) uninit mem attribs mask).1 mask p i := by
  obtain ⟨mask, hmask, -, hact⟩ := computeMask_count numVertices h0
  have hn : (min numVertices 16).toNat = numVertices.toNat := by omega
  rw [hn] at hact
  obtain ⟨hx, hy, hw⟩ := hk
  have hl := shadedParams_length apv ppv shade uninit mem attribs mask
  obtain ⟨d, hd, hdl, hrest, -⟩ := perspectiveDivide_some k
    (shadedParams apv ppv shade uninit mem attribs mask)
    (by rw [hl]; omega) (by rw [hl]; omega) (by rw [hl]; omega)
  have hrun := processVertices_eq k apv ppv shade uninit mem outParams attribs numVertices
    mask d hmask hd (hdl.trans hl)
  refine ⟨mask, _, hmask, hrun, ?_⟩
  apply applyWrites_at ppv outParams mask d numVertices.toNat mem hact hfit i p _
    (by omega) (by omega)
  rw [hrest p hpx hpy, shadedParams_get _ _ _ _ _ _ _ _ (by omega)]

/-- Lane 0 of attribute 4 gathered for one vertex with five attributes at 1000. -/
theorem gathered_bump (uninit : Nat → vecf16 ℚ) (mem : Nat → ℚ) (mask : Nat)
    (hmask : computeMask 1 = some mask) :
    ((gatherAttribs (VertexShader.new 5 5) uninit mem 1000 mask).1.getD 4 (fun _ => 0)) 0
      = mem 1016 := by
  have hm : mask = 0x8000 := by
    have : computeMask 1 = some 0x8000 := by decide
    rw [this] at hmask
    exact (Option.some.inj hmask).symm
  subst hm
  rw [List.getD_eq_getElem?_getD, gatherAttribs_get, if_pos (by decide)]
  have ha : laneActive 0x8000 0 = true := by decide
  have hc : cellAddr 1000 5 (0 : Fin 16).val 4 = 1016 := by decide
  simp only [Option.getD_some, ha, if_true, hc]

theorem advance_add (ptr : veci16) (t : Nat) :
    advance ptr (t + 1) = (advance ptr t).add (splati 4) := by
  induction t generalizing ptr with
  | zero => rfl
  | succ t ih =>
    rw [advance_succ ptr (t + 1), ih, ← advance_succ]

theorem gatherIter_shift (mask : Nat) (uninit : Nat → vecf16 F)
    (s : Nat × veci16 × List (vecf16 F) × Machine F) (t : Nat) :
    gatherIter mask uninit (gatherBody mask uninit s) t
      = gatherBody mask uninit (gatherIter mask uninit s t) := by
  induction t with
  | zero => rfl
  | succ t ih => simp only [gatherIter, ih]

theorem gatherLoop_iter (mask : Nat) (uninit : Nat → vecf16 F) (n : Nat)
    (s : Nat × veci16 × List (vecf16 F) × Machine F) :
    gatherLoop mask uninit n s.1 s.2.1 s.2.2.1 s.2.2.2 = (gatherIter mask uninit s n).2 := by
  induction n generalizing s with
  | zero => rfl
  | succ n ih =>
    have h := ih (gatherBody mask uninit s)
    rw [gatherIter_shift] at h
    simp only [gatherIter]
    rw [← h]
    rfl

theorem gatherIter_state (mask : Nat) (uninit : Nat → vecf16 F)
    (s : Nat × veci16 × List (vecf16 F) × Machine F) (t : Nat) :
    (gatherIter mask uninit s t).1 = s.1 + t ∧
      (gatherIter mask uninit s t).2.1 = advance s.2.1 t := by
  induction t with
  | zero => exact ⟨rfl, rfl⟩
  | succ t ih =>
    obtain ⟨h1, h2⟩ := ih
    refine ⟨?_, ?_⟩
    · simp only [gatherIter, gatherBody, h1]; omega
    · simp only [gatherIter, gatherBody, h2, advance_add]

theorem scatterIter_shift (mask : Nat) (pp : List (vecf16 F)) (s : Nat × veci16 × Machine F)
    (t : Nat) :
    scatterIter mask pp s (t + 1)
      = (scatterBody mask pp s).bind (fun s' => scatterIter mask pp s' t) := by
  induction t with
  | zero => simp [scatterIter]
  | succ t ih =>
    rw [scatterIter, ih]
    cases h : scatterBody mask pp s with
    | none => rfl
    | some s' => simp [scatterIter]

theorem scatterLoop_iter (mask : Nat) (pp : List (vecf16 F)) (n : Nat)
    (s : Nat × veci16 × Machine F) :
    scatterLoop mask pp n s.1 s.2.1 s.2.2 = (scatterIter mask pp s n).map (fun s' => s'.2) := by
  induction n generalizing s with
  | zero => rfl
  | succ n ih =>
    rw [scatterIter_shift]
    simp only [scatterLoop, scatterBody]
    cases h : pp[s.1]? with
    | none => rfl
    | some v =>
      simp only [Option.some_bind]
      exact ih (s.1 + 1, s.2.1.add (splati 4), scatter_storef_masked s.2.2 s.2.1 v mask)

theorem scatterIter_state (mask : Nat) (pp : List (vecf16 F)) (s : Nat × veci16 × Machine F)
    (t : Nat) (hlen : s.1 + t ≤ pp.length) :
    ∃ s', scatterIter mask pp s t = some s' ∧ s'.1 = s.1 + t ∧ s'.2.1 = advance s.2.1 t := by
  induction t with
  | zero => exact ⟨s, rfl, rfl, rfl⟩
  | succ t ih =>
    obtain ⟨s', h1, h2, h3⟩ := ih (by omega)
    have hp : s'.1 < pp.length := by omega
    refine ⟨(s'.1 + 1, s'.2.1.add (splati 4),
      scatter_storef_masked s'.2.2 s'.2.1 (pp[s'.1]) mask), ?_, ?_, ?_⟩
    · simp only [scatterIter, h1, Option.some_bind, scatterBody, List.getElem?_eq_getElem hp]
    · simp only [h2]; omega
    · simp only [h3, advance_add]

theorem basePtr_lane_modEq (size : Int) (base : Nat) (i : Fin 16) (t : Nat) :
    advance (basePtr size base) t i
      ≡ (base : Int) + 4 * (i.val : Int) * size + 4 * (t : Int) [ZMOD 4294967296] := by
  refine (advance_modEq _ t i).trans ?_
  have := Int.ModEq.add_right (4 * (t : Int)) (stepVector_modEq size base i)
  refine this.trans ?_
  have e : (base : Int) + 4 * ((i.val : Int) * size) + 4 * (t : Int)
      = (base : Int) + 4 * (i.val : Int) * size + 4 * (t : Int) := by ring
  rw [e]

/-- Lane 15 of attribute 0 gathered for one vertex with four attributes at 100 is
whatever the inactive lane held. -/
theorem gathered_peek (uninit : Nat → vecf16 ℚ) (mem : Nat → ℚ) (mask : Nat)
    (hmask : computeMask 1 = some mask) :
    ((gatherAttribs (VertexShader.new 4 5) uninit mem 100 mask).1.getD 0 (fun _ => 0)) 15
      = uninit 0 15 := by
  have hm : mask = 0x8000 := by
    have : computeMask 1 = some 0x8000 := by decide
    rw [this] at hmask
    exact (Option.some.inj hmask).symm
  subst hm
  rw [List.getD_eq_getElem?_getD, gatherAttribs_get, if_pos (by decide)]
  have ha : laneActive 0x8000 15 = false := by decide
  simp [ha]

/-- With disjoint attribute and output regions inside the address space, the
attributes gathered after a first run agree on the active lanes with those
gathered before it. -/
theorem gathered_after_run (apv ppv : Int) (uninit1 uninit2 : Nat → vecf16 F) (mem : Nat → F)
    (outParams attribs mask : Nat) (d : List (vecf16 F)) (n : Nat)
    (hact : ∀ i : Fin 16, laneActive mask i = true ↔ i.val < n)
    (hfitOut : outParams + 4 * (ppv.toNat * n) ≤ 4294967296)
    (hfitIn : attribs + 4 * (apv.toNat * n) ≤ 4294967296)
    (hdisj : outParams + 4 * (ppv.toNat * n) ≤ attribs ∨
      attribs + 4 * (apv.toNat * n) ≤ outParams)
    (a : Nat) (v1 v2 : vecf16 F) (j : Fin 16)
    (h1 : (gatherAttribs (VertexShader.new apv ppv) uninit1 mem attribs mask).1[a]? = some v1)
    (h2 : (gatherAttribs (VertexShader.new apv ppv) uninit2
      (applyWrites (loopPairs mask d ppv.toNat 0 (basePtr ppv outParams)) mem) attribs
      mask).1[a]? = some v2)
    (hj : laneActive mask j = true) : v1 j = v2 j := by
  rw [gatherAttribs_get] at h1 h2
  by_cases ha : a < apv.toNat
  · simp only [ha, if_true, Option.some.injEq] at h1 h2
    subst h1; subst h2
    simp only [hj, if_true]
    have hj' := (hact j).1 hj
    rw [cellAddr_fit attribs apv n j.val a hfitIn hj' ha]
    symm
    apply applyWrites_not_mem
    intro x hx
    obtain ⟨i, q, -, hi, hq, -, he, -⟩ :=
      (mem_writes_fit ppv outParams mask d n hact hfitOut _ _).1 hx
    have b1 := record_lt hj' ha
    have b2 := record_lt hi hq
    have c1 : n * apv.toNat = apv.toNat * n := Nat.mul_comm _ _
    have c2 : n * ppv.toNat = ppv.toNat * n := Nat.mul_comm _ _
    omega
  · simp [ha] at h1

/-- When every lane is active, lists that agree on the active lanes are equal. -/
theorem lists_eq_of_all_active (pa1 pa2 : List (vecf16 F)) (mask : Nat)
    (hall : ∀ i : Fin 16, laneActive mask i = true) (hlen : pa1.length = pa2.length)
    (h : ∀ (a : Nat) (v1 v2 : vecf16 F) (j : Fin 16), pa1[a]? = some v1 → pa2[a]? = some v2 →
      laneActive mask j = true → v1 j = v2 j) : pa1 = pa2 := by
  apply List.ext_getElem hlen
  intro a h1 h2
  funext j
  exact h a _ _ j (List.getElem?_eq_getElem h1) (List.getElem?_eq_getElem h2) (hall j)

/-! ## The claims -/

/-- C1 (frame): for `numVertices` in 0..16, `paramsPerVertex ≥ 4` and an output
buffer that does not wrap around the 32-bit address space, `processVertices`
returns, the cells it writes are exactly `outParams + 4*(i*paramsPerVertex + p)`
with `i < numVertices` and `p < paramsPerVertex`, and every other cell holds the
value it held before the call. -/
theorem processVertices_frame [One F] [Mul F] [Div F] (k : ParamIndices)
    (attribsPerVertex paramsPerVertex : Int) (shade : Shade F) (uninit : Nat → vecf16 F)
    (mem : Nat → F) (outParams attribs : Nat) (numVertices : Int)
    (h0 : 0 ≤ numVertices) (h16 : numVertices ≤ 16) (hk : k.Reserved)
    (hp : 4 ≤ paramsPerVertex)
    (hfit : outParams + 4 * (paramsPerVertex.toNat * numVertices.toNat) ≤ 4294967296) :
    ∃ r, processVertices k (VertexShader.new attribsPerVertex paramsPerVertex) shade uninit mem
        outParams attribs numVertices = some r ∧
      (∀ a, a ∈ r.writes ↔ ∃ i p : Nat, (i : Int) < numVertices ∧ p < paramsPerVertex.toNat ∧
        a = outParams + 4 * (i * paramsPerVertex.toNat + p)) ∧
      (∀ a, (¬ ∃ i p : Nat, (i : Int) < numVertices ∧ p < paramsPerVertex.toNat ∧
        a = outParams + 4 * (i * paramsPerVertex.toNat + p)) → r.mem a = mem a) := by
  obtain ⟨mask, d, -, -, hact, -, hdl, hrun⟩ := processVertices_run k attribsPerVertex
    paramsPerVertex shade uninit mem outParams attribs numVertices h0 hk hp
  have hn : (min numVertices 16).toNat = numVertices.toNat := by omega
  rw [hn] at hact
  have key := mem_writes_addr paramsPerVertex outParams mask d numVertices.toNat hact hdl
    (by omega) hfit
  have conv : ∀ a, (∃ i p : Nat, i < numVertices.toNat ∧ p < paramsPerVertex.toNat ∧
        a = outParams + 4 * (i * paramsPerVertex.toNat + p)) ↔
      ∃ i p : Nat, (i : Int) < numVertices ∧ p < paramsPerVertex.toNat ∧
        a = outParams + 4 * (i * paramsPerVertex.toNat + p) := by
    intro a
    constructor
    · rintro ⟨i, p, hi, h⟩; exact ⟨i, p, by omega, h⟩
    · rintro ⟨i, p, hi, h⟩; exact ⟨i, p, by omega, h⟩
  refine ⟨_, hrun, ?_, ?_⟩
  · intro a
    rw [← conv, ← key, writes_mem_iff]
  · intro a ha
    rw [← conv, ← key] at ha
    exact applyWrites_not_mem _ _ _ (fun x hx => ha ⟨x, hx⟩)

/-- A run on three vertices with four parameters each, exhibiting C1. -/
theorem processVertices_frame_witness :
    ((0 : Int) ≤ 3 ∧ (3 : Int) ≤ 16 ∧ demoIdx.Reserved ∧ (4 : Int) ≤ 4 ∧
      1000 + 4 * ((4 : Int).toNat * (3 : Int).toNat) ≤ 4294967296) ∧
    ∃ r, processVertices demoIdx (VertexShader.new 4 4) demoShade demoUninit demoMem
        1000 100 3 = some r ∧
      (∀ a, a ∈ r.writes ↔ ∃ i p : Nat, (i : Int) < 3 ∧ p < (4 : Int).toNat ∧
        a = 1000 + 4 * (i * (4 : Int).toNat + p)) ∧
      (∀ a, (¬ ∃ i p : Nat, (i : Int) < 3 ∧ p < (4 : Int).toNat ∧
        a = 1000 + 4 * (i * (4 : Int).toNat + p)) → r.mem a = demoMem a) :=
  ⟨by decide, processVertices_frame demoIdx 4 4 demoShade demoUninit demoMem 1000 100 3
    (by decide) (by decide) (by decide) (by decide) (by decide)⟩

/-- C2 (active-lane mask): for `numVertices` in 0..15 the mask is a 16-bit value
whose bit `b` is set exactly when `b` is one of the top `numVertices` bits, so
lane `i` (bit `15 - i`) is active iff `i < numVertices`; for `numVertices ≥ 16`
the mask is `0xffff`; for `numVertices = 3` it is `0xe000`. -/
theorem computeMask_lanes (numVertices : Int) (h0 : 0 ≤ numVertices) :
    (numVertices < 16 →
      ∃ mask, computeMask numVertices = some mask ∧ mask < 65536 ∧
        (∀ b : Nat, mask.testBit b = true ↔ b < 16 ∧ 16 ≤ (b : Int) + numVertices) ∧
        (∀ i : Nat, i < 16 → (mask.testBit (15 - i) = true ↔ (i : Int) < numVertices)) ∧
        (∀ i : Fin 16, laneActive mask i = true ↔ (i.val : Int) < numVertices)) ∧
    (16 ≤ numVertices → computeMask numVertices = some 0xffff) ∧
    computeMask 3 = some 0xe000 := by
  refine ⟨fun h => ?_, fun h => ?_, by decide⟩
  · obtain ⟨n, rfl⟩ := Int.eq_ofNat_of_zero_le h0
    have hn : n < 16 := by omega
    refine ⟨(0xffff0000 >>> n) &&& 0xffff, by simp [computeMask, h, h0], ?_, ?_, ?_, ?_⟩
    · interval_cases n <;> decide
    · intro b
      by_cases hb : b < 16
      · interval_cases n <;> interval_cases b <;> decide
      · have h1 : (0xffff0000 >>> n) &&& 0xffff < 2 ^ b := by
          have h2 : (0xffff0000 >>> n) &&& 0xffff < 2 ^ 16 := by interval_cases n <;> decide
          exact lt_of_lt_of_le h2 (Nat.pow_le_pow_right (by decide) (by omega))
        rw [Nat.testBit_lt_two_pow h1]
        simp [hb]
    · intro i hi
      interval_cases n <;> interval_cases i <;> decide
    · interval_cases n <;> decide
  · have : ¬ numVertices < 16 := by omega
    simp [computeMask, this]

/-- The mask for five vertices, exhibiting C2. -/
theorem computeMask_lanes_witness :
    (0 : Int) ≤ 5 ∧
    (((5 : Int) < 16 →
      ∃ mask, computeMask 5 = some mask ∧ mask < 65536 ∧
        (∀ b : Nat, mask.testBit b = true ↔ b < 16 ∧ 16 ≤ (b : Int) + 5) ∧
        (∀ i : Nat, i < 16 → (mask.testBit (15 - i) = true ↔ (i : Int) < 5)) ∧
        (∀ i : Fin 16, laneActive mask i = true ↔ (i.val : Int) < 5)) ∧
    ((16 : Int) ≤ 5 → computeMask 5 = some 0xffff) ∧
    computeMask 3 = some 0xe000) :=
  ⟨by decide, computeMask_lanes 5 (by decide)⟩

/-- C3 (stride vectors): lane `i` of the attribute (parameter) stride vector the
constructor stores is `i * 4 * attribsPerVertex` (`i * 4 * paramsPerVertex`) as a
32-bit integer, it is that product exactly whenever `60 * size` is within the
32-bit range, and lane 0 is always 0. -/
theorem constructor_strides (attribsPerVertex paramsPerVertex : Int) :
    (∀ i : Fin 16,
      (VertexShader.new attribsPerVertex paramsPerVertex).fAttribStepVector i
        = wrap32 ((i.val : Int) * 4 * attribsPerVertex) ∧
      (VertexShader.new attribsPerVertex paramsPerVertex).fParamStepVector i
        = wrap32 ((i.val : Int) * 4 * paramsPerVertex)) ∧
    (-2147483648 ≤ 60 * attribsPerVertex → 60 * attribsPerVertex < 2147483648 → ∀ i : Fin 16,
      (VertexShader.new attribsPerVertex paramsPerVertex).fAttribStepVector i
        = (i.val : Int) * 4 * attribsPerVertex) ∧
    (-2147483648 ≤ 60 * paramsPerVertex → 60 * paramsPerVertex < 2147483648 → ∀ i : Fin 16,
      (VertexShader.new attribsPerVertex paramsPerVertex).fParamStepVector i
        = (i.val : Int) * 4 * paramsPerVertex) ∧
    (VertexShader.new attribsPerVertex paramsPerVertex).fAttribStepVector 0 = 0 ∧
    (VertexShader.new attribsPerVertex paramsPerVertex).fParamStepVector 0 = 0 := by
  refine ⟨fun i => ⟨stepVector_lane _ i, stepVector_lane _ i⟩, fun h0 h1 i => ?_,
    fun h0 h1 i => ?_, ?_, ?_⟩
  · exact (stepVector_lane _ i).trans (stepVector_exact _ i h0 h1)
  · exact (stepVector_lane _ i).trans (stepVector_exact _ i h0 h1)
  · exact (stepVector_lane _ 0).trans (by simp [wrap32])
  · exact (stepVector_lane _ 0).trans (by simp [wrap32])

/-- The strides for eight attributes and four parameters, exhibiting C3. -/
theorem constructor_strides_witness :
    (VertexShader.new 8 4).fAttribStepVector 3 = 96 ∧
    (VertexShader.new 8 4).fParamStepVector 15 = 240 := by
  have h := constructor_strides 8 4
  exact ⟨(h.2.1 (by decide) (by decide) 3).trans (by decide),
    (h.2.2.1 (by decide) (by decide) 15).trans (by decide)⟩

/-- C4 (gather round-trip): for every `numVertices ≥ 0` (so for 0..16), every
attribute index `a < attribsPerVertex` and every active lane `i < numVertices`,
lane `i` of the vector `packedAttribs[a]` is the float stored at the 32-bit
address `attribs + 4*(i*attribsPerVertex + a)`; and `packedAttribs` is what the
shading capability receives: a call invokes its capability on that list only. -/
theorem gather_roundtrip [One F] [Mul F] [Div F] (attribsPerVertex paramsPerVertex : Int)
    (uninit : Nat → vecf16 F) (mem : Nat → F) (attribs : Nat) (numVertices : Int) (a : Nat)
    (i : Fin 16) (h0 : 0 ≤ numVertices) (ha : (a : Int) < attribsPerVertex)
    (hi : (i.val : Int) < numVertices) :
    ∃ mask packedAttribs v, computeMask numVertices = some mask ∧
      packedAttribs = (gatherAttribs (VertexShader.new attribsPerVertex paramsPerVertex) uninit
        mem attribs mask).1 ∧
      packedAttribs[a]? = some v ∧
      v i = mem ((attribs + 4 * (i.val * attribsPerVertex.toNat + a)) % 4294967296) ∧
      ∀ (k : ParamIndices) (shade : Shade F) (outParams : Nat),
        processVertices k (VertexShader.new attribsPerVertex paramsPerVertex) shade uninit mem
            outParams attribs numVertices
          = processVertices k (VertexShader.new attribsPerVertex paramsPerVertex)
              (fun _ => shade packedAttribs) uninit mem outParams attribs numVertices := by
  obtain ⟨mask, hmask, -, hact⟩ := computeMask_spec numVertices h0
  refine ⟨mask, _, fun j => if laneActive mask j then
    mem (cellAddr attribs attribsPerVertex j.val a) else uninit a j, hmask, rfl, ?_, ?_, ?_⟩
  · rw [gatherAttribs_get, if_pos (by omega)]
  · simp only [(hact i).2 hi, if_true]
    rw [cellAddr_mod _ _ _ _ (by omega)]
  · intro k shade outParams
    simp only [processVertices, hmask]

/-- Lane 2 of attribute 1 in a run on three vertices, exhibiting C4. -/
theorem gather_roundtrip_witness :
    ((0 : Int) ≤ 3 ∧ ((1 : Nat) : Int) < 4 ∧ (((2 : Fin 16).val : Nat) : Int) < 3) ∧
    ∃ mask v, computeMask 3 = some mask ∧
      (gatherAttribs (VertexShader.new 4 4) demoUninit demoMem 100 mask).1[1]? = some v ∧
      v 2 = demoMem ((100 + 4 * ((2 : Fin 16).val * (4 : Int).toNat + 1)) % 4294967296) := by
  refine ⟨by decide, ?_⟩
  obtain ⟨mask, pa, v, h1, h2, h3, h4, -⟩ := gather_roundtrip 4 4 demoUninit demoMem 100 3 1 2
    (by decide) (by decide) (by decide)
  subst h2
  exact ⟨mask, v, h1, h3, h4⟩

/-- C5 (perspective divide): for every active lane `i < numVertices` the X and Y
floats written to record `i` are the capability's X and Y for lane `i` each
multiplied by `1 / W` of lane `i`, and the W float written is the capability's W;
in a field (exact arithmetic) these are `X / W` and `Y / W` when `W ≠ 0`; and for
a capability returning constant `W = 2`, `X = 4`, `Y = 6` the record holds
`X = 2`, `Y = 3`, `W = 2`. -/
theorem perspective_divide :
    (∀ (F : Type) [One F] [Mul F] [Div F] (k : ParamIndices) (apv ppv : Int) (shade : Shade F)
      (uninit : Nat → vecf16 F) (mem : Nat → F) (outParams attribs : Nat) (numVertices : Int)
      (i : Fin 16), 0 ≤ numVertices → numVertices ≤ 16 → k.Reserved → k.Distinct → 4 ≤ ppv →
      outParams + 4 * (ppv.toNat * numVertices.toNat) ≤ 4294967296 →
      (i.val : Int) < numVertices →
      ∃ mask r pa, computeMask numVertices = some mask ∧
        pa = (gatherAttribs (VertexShader.new apv ppv) uninit mem attribs mask).1 ∧
        processVertices k (VertexShader.new apv ppv) shade uninit mem outParams attribs
          numVertices = some r ∧
        RecordXYW k r.mem outParams ppv i.val
          (shade pa mask k.kParamX i * (1 / shade pa mask k.kParamW i))
          (shade pa mask k.kParamY i * (1 / shade pa mask k.kParamW i))
          (shade pa mask k.kParamW i)) ∧
    (∀ (F : Type) [Field F] (k : ParamIndices) (apv ppv : Int) (shade : Shade F)
      (uninit : Nat → vecf16 F) (mem : Nat → F) (outParams attribs : Nat) (numVertices : Int)
      (i : Fin 16), 0 ≤ numVertices → numVertices ≤ 16 → k.Reserved → k.Distinct → 4 ≤ ppv →
      outParams + 4 * (ppv.toNat * numVertices.toNat) ≤ 4294967296 →
      (i.val : Int) < numVertices →
      ∃ mask r pa, computeMask numVertices = some mask ∧
        pa = (gatherAttribs (VertexShader.new apv ppv) uninit mem attribs mask).1 ∧
        processVertices k (VertexShader.new apv ppv) shade uninit mem outParams attribs
          numVertices = some r ∧
        (shade pa mask k.kParamW i ≠ 0 →
          RecordXYW k r.mem outParams ppv i.val
            (shade pa mask k.kParamX i / shade pa mask k.kParamW i)
            (shade pa mask k.kParamY i / shade pa mask k.kParamW i)
            (shade pa mask k.kParamW i))) ∧
    (∀ (k : ParamIndices) (apv ppv : Int) (shade : Shade ℚ)
      (uninit : Nat → vecf16 ℚ) (mem : Nat → ℚ) (outParams attribs : Nat) (numVertices : Int)
      (i : Fin 16), 0 ≤ numVertices → numVertices ≤ 16 → k.Reserved → k.Distinct → 4 ≤ ppv →
      outParams + 4 * (ppv.toNat * numVertices.toNat) ≤ 4294967296 →
      (i.val : Int) < numVertices →
      (∀ pa mask j, shade pa mask k.kParamW j = 2 ∧ shade pa mask k.kParamX j = 4 ∧
        shade pa mask k.kParamY j = 6) →
      ∃ r, processVertices k (VertexShader.new apv ppv) shade uninit mem outParams attribs
          numVertices = some r ∧
        RecordXYW k r.mem outParams ppv i.val 2 3 2) := by
  refine ⟨?_, ?_, ?_⟩
  · intro F _ _ _ k apv ppv shade uninit mem outParams attribs numVertices i h0 h16 hk hd hp
      hfit hi
    obtain ⟨mask, r, h1, h2, h3⟩ := written_divided k apv ppv shade uninit mem outParams
      attribs numVertices i h0 h16 hk hd hp hfit hi
    exact ⟨mask, r, _, h1, rfl, h2, h3⟩
  · intro F _ k apv ppv shade uninit mem outParams attribs numVertices i h0 h16 hk hd hp
      hfit hi
    obtain ⟨mask, r, h1, h2, h3⟩ := written_divided k apv ppv shade uninit mem outParams
      attribs numVertices i h0 h16 hk hd hp hfit hi
    refine ⟨mask, r, _, h1, rfl, h2, fun _ => ?_⟩
    simpa only [mul_one_div] using h3
  · intro k apv ppv shade uninit mem outParams attribs numVertices i h0 h16 hk hd hp
      hfit hi hconst
    obtain ⟨mask, r, h1, h2, h3⟩ := written_divided k apv ppv shade uninit mem outParams
      attribs numVertices i h0 h16 hk hd hp hfit hi
    refine ⟨r, h2, ?_⟩
    simp only [(hconst _ _ _).1, (hconst _ _ _).2.1, (hconst _ _ _).2.2] at h3
    norm_num at h3
    exact h3

/-- Record 2 of a run on three vertices with the constant capability, exhibiting C5. -/
theorem perspective_divide_witness :
    ((0 : Int) ≤ 3 ∧ (3 : Int) ≤ 16 ∧ demoIdx.Reserved ∧ demoIdx.Distinct ∧ (4 : Int) ≤ 4 ∧
      1000 + 4 * ((4 : Int).toNat * (3 : Int).toNat) ≤ 4294967296 ∧
      (((2 : Fin 16).val : Nat) : Int) < 3) ∧
    ∃ r, processVertices demoIdx (VertexShader.new 4 4) demoShade demoUninit demoMem
        1000 100 3 = some r ∧
      RecordXYW demoIdx r.mem 1000 4 (2 : Fin 16).val 2 3 2 :=
  ⟨by decide, perspective_divide.2.2 demoIdx 4 4 demoShade demoUninit demoMem 1000 100 3 2
    (by decide) (by decide) (by decide) (by decide) (by decide) (by decide) (by decide)
    (fun _ _ _ => by simp [demoShade, demoIdx])⟩

/-- C6 (scatter layout): for `numVertices` in 0..16, every active lane
`i < numVertices` and every parameter index `p < paramsPerVertex` other than
`kParamX` and `kParamY`, the float at `outParams + 4*(i*paramsPerVertex + p)` after
the call is the value the shading capability produced in `packedParams[p]` at
lane `i`. -/
theorem scatter_layout [One F] [Mul F] [Div F] (k : ParamIndices) (apv ppv : Int)
    (shade : Shade F) (uninit : Nat → vecf16 F) (mem : Nat → F) (outParams attribs : Nat)
    (numVertices : Int) (i : Fin 16) (p : Nat)
    (h0 : 0 ≤ numVertices) (h16 : numVertices ≤ 16) (hk : k.Reserved) (hp : 4 ≤ ppv)
    (hfit : outParams + 4 * (ppv.toNat * numVertices.toNat) ≤ 4294967296)
    (hi : (i.val : Int) < numVertices) (hpp : (p : Int) < ppv)
    (hpx : p ≠ k.kParamX) (hpy : p ≠ k.kParamY) :
    ∃ mask r, computeMask numVertices = some mask ∧
      processVertices k (VertexShader.new apv ppv) shade uninit mem outParams attribs
        numVertices = some r ∧
      r.mem (outParams + 4 * (i.val * ppv.toNat + p))
        = shade (gatherAttribs (VertexShader.new apv ppv) uninit mem attribs mask).1 mask p i := by
  obtain ⟨mask, hmask, -, hact⟩ := computeMask_count numVertices h0
  have hn : (min numVertices 16).toNat = numVertices.toNat := by omega
  rw [hn] at hact
  obtain ⟨hx, hy, hw⟩ := hk
  have hl := shadedParams_length apv ppv shade uninit mem attribs mask
  obtain ⟨d, hd, hdl, hrest, -⟩ := perspectiveDivide_some k
    (shadedParams apv ppv shade uninit mem attribs mask)
    (by rw [hl]; omega) (by rw [hl]; omega) (by rw [hl]; omega)
  have hrun := processVertices_eq k apv ppv shade uninit mem outParams attribs numVertices
    mask d hmask hd (hdl.trans hl)
  refine ⟨mask, _, hmask, hrun, ?_⟩
  apply applyWrites_at ppv outParams mask d numVertices.toNat mem hact hfit i p _
    (by omega) (by omega)
  rw [hrest p hpx hpy, shadedParams_get _ _ _ _ _ _ _ _ (by omega)]

/-- Parameter 2 of record 1 in a run on three vertices, exhibiting C6. -/
theorem scatter_layout_witness :
    ((0 : Int) ≤ 3 ∧ (3 : Int) ≤ 16 ∧ demoIdx.Reserved ∧ (4 : Int) ≤ 4 ∧
      1000 + 4 * ((4 : Int).toNat * (3 : Int).toNat) ≤ 4294967296 ∧
      (((1 : Fin 16).val : Nat) : Int) < 3 ∧ ((2 : Nat) : Int) < 4 ∧
      2 ≠ demoIdx.kParamX ∧ 2 ≠ demoIdx.kParamY) ∧
    ∃ mask r, computeMask 3 = some mask ∧
      processVertices demoIdx (VertexShader.new 4 4) demoShade demoUninit demoMem 1000 100 3
        = some r ∧
      r.mem (1000 + 4 * ((1 : Fin 16).val * (4 : Int).toNat + 2))
        = demoShade (gatherAttribs (VertexShader.new 4 4) demoUninit demoMem 100 mask).1 mask
            2 1 :=
  ⟨by decide, scatter_layout demoIdx 4 4 demoShade demoUninit demoMem 1000 100 3 1 2
    (by decide) (by decide) (by decide) (by decide) (by decide) (by decide) (by decide)
    (by decide) (by decide)⟩

/-- C7 as stated fails: with disjoint buffers (output at 1000, attributes at 100,
one vertex, four attributes, five parameters) and the deterministic capability
`peekShade`, which reads an inactive lane of its input, a first call whose
inactive lanes hold 0 leaves 0 in cell 1016 and a second call whose inactive
lanes hold 7 leaves 7 there: the memory after two calls differs from the memory
after one. -/
theorem idempotence_refuted :
    ((0 : Int) ≤ 1 ∧ (1 : Int) ≤ 16 ∧ demoIdx.Reserved ∧ (4 : Int) ≤ 5 ∧
      1000 + 4 * ((5 : Int).toNat * (1 : Int).toNat) ≤ 4294967296 ∧
      100 + 4 * ((4 : Int).toNat * (1 : Int).toNat) ≤ 4294967296 ∧
      100 + 4 * ((4 : Int).toNat * (1 : Int).toNat) ≤ 1000) ∧
    ∃ r1 r2,
      processVertices demoIdx (VertexShader.new 4 5) peekShade demoUninit demoMem 1000 100 1
        = some r1 ∧
      processVertices demoIdx (VertexShader.new 4 5) peekShade demoUninit7 r1.mem 1000 100 1
        = some r2 ∧
      r1.mem 1016 = 0 ∧ r2.mem 1016 = 7 ∧ r2.mem ≠ r1.mem := by
  refine ⟨by decide, ?_⟩
  obtain ⟨mask, r1, hmask, hrun1, hv1⟩ := written_plain demoIdx 4 5 peekShade demoUninit
    demoMem 1000 100 1 0 4 (by decide) (by decide) (by decide) (by decide) (by decide)
    (by decide) (by decide) (by decide) (by decide)
  obtain ⟨mask2, r2, hmask2, hrun2, hv2⟩ := written_plain demoIdx 4 5 peekShade demoUninit7
    r1.mem 1000 100 1 0 4 (by decide) (by decide) (by decide) (by decide) (by decide)
    (by decide) (by decide) (by decide) (by decide)
  have e : 1000 + 4 * ((0 : Fin 16).val * (5 : Int).toNat + 4) = 1016 := by decide
  rw [e] at hv1 hv2
  have c1 : r1.mem 1016 = 0 := by
    rw [hv1]
    simp only [peekShade, if_true, gathered_peek demoUninit demoMem mask hmask, demoUninit]
  have c2 : r2.mem 1016 = 7 := by
    rw [hv2]
    simp only [peekShade, if_true, gathered_peek demoUninit7 r1.mem mask2 hmask2, demoUninit7]
  refine ⟨r1, r2, hrun1, hrun2, c1, c2, fun h => ?_⟩
  have := congrFun h 1016
  rw [c1, c2] at this
  norm_num at this

/-- C7 (amended): for attribute and output regions that lie in the address space
and do not overlap, and a deterministic capability whose outputs on the active
lanes do not depend on the inactive lanes of its input (or any capability when
`numVertices = 16`, where no lane is inactive), a second `processVertices` call
with the same arguments, run on the memory the first call left and with
arbitrary contents in its inactive lanes, returns and leaves memory exactly as
the first call left it. -/
theorem processVertices_idempotent [One F] [Mul F] [Div F] (k : ParamIndices)
    (attribsPerVertex paramsPerVertex : Int) (shade : Shade F)
    (uninit1 uninit2 : Nat → vecf16 F) (mem : Nat → F) (outParams attribs : Nat)
    (numVertices : Int) (h0 : 0 ≤ numVertices) (h16 : numVertices ≤ 16) (hk : k.Reserved)
    (hp : 4 ≤ paramsPerVertex)
    (hfitOut : outParams + 4 * (paramsPerVertex.toNat * numVertices.toNat) ≤ 4294967296)
    (hfitIn : attribs + 4 * (attribsPerVertex.toNat * numVertices.toNat) ≤ 4294967296)
    (hdisj : outParams + 4 * (paramsPerVertex.toNat * numVertices.toNat) ≤ attribs ∨
      attribs + 4 * (attribsPerVertex.toNat * numVertices.toNat) ≤ outParams)
    (hdep : numVertices = 16 ∨ ActiveOnly shade) :
    ∃ r1 r2,
      processVertices k (VertexShader.new attribsPerVertex paramsPerVertex) shade uninit1 mem
        outParams attribs numVertices = some r1 ∧
      processVertices k (VertexShader.new attribsPerVertex paramsPerVertex) shade uninit2 r1.mem
        outParams attribs numVertices = some r2 ∧
      r2.mem = r1.mem := by
  obtain ⟨mask, d, hmask, -, hact, -, -, hrun⟩ := processVertices_run k attribsPerVertex
    paramsPerVertex shade uninit1 mem outParams attribs numVertices h0 hk hp
  have hn : (min numVertices 16).toNat = numVertices.toNat := by omega
  rw [hn] at hact
  have hagree := gathered_after_run attribsPerVertex paramsPerVertex uninit1 uninit2 mem
    outParams attribs mask d numVertices.toNat hact hfitOut hfitIn hdisj
  obtain ⟨l, r1, r2, h1, h2, e1, e2, -, -⟩ := run_pairs_congr k attribsPerVertex
    paramsPerVertex shade shade uninit1 uninit2 mem
    (applyWrites (loopPairs mask d paramsPerVertex.toNat 0
      (basePtr paramsPerVertex outParams)) mem) outParams attribs numVertices h0 hk hp (by
      intro mask' hmask' p _ i hi
      have hm : mask' = mask := by
        rw [hmask] at hmask'
        exact (Option.some.inj hmask').symm
      subst hm
      have hai : laneActive mask' i = true := (hact i).2 (by omega)
      have hlen : (gatherAttribs (VertexShader.new attribsPerVertex paramsPerVertex) uninit1
          mem attribs mask').1.length
          = (gatherAttribs (VertexShader.new attribsPerVertex paramsPerVertex) uninit2
              (applyWrites (loopPairs mask' d paramsPerVertex.toNat 0
                (basePtr paramsPerVertex outParams)) mem) attribs mask').1.length := by
        rw [gatherAttribs_length, gatherAttribs_length]
      rcases hdep with h16' | hao
      · have hall : ∀ j : Fin 16, laneActive mask' j = true := by
          intro j
          have := j.isLt
          exact (hact j).2 (by omega)
        rw [lists_eq_of_all_active _ _ mask' hall hlen hagree]
      · exact hao _ _ mask' p hlen hagree i hai)
  have hr1 : r1.mem = applyWrites (loopPairs mask d paramsPerVertex.toNat 0
      (basePtr paramsPerVertex outParams)) mem := by
    rw [hrun] at h1
    rw [← Option.some.inj h1]
  refine ⟨r1, r2, h1, ?_, ?_⟩
  · rw [hr1]; exact h2
  · rw [e2, ← hr1, e1]
    exact applyWrites_idem l mem

/-- Two successive runs of the constant capability on three vertices whose
inactive lanes hold 0 in the first call and 7 in the second, exhibiting the
amended C7. -/
theorem processVertices_idempotent_witness :
    ((0 : Int) ≤ 3 ∧ (3 : Int) ≤ 16 ∧ demoIdx.Reserved ∧ (4 : Int) ≤ 4 ∧
      1000 + 4 * ((4 : Int).toNat * (3 : Int).toNat) ≤ 4294967296 ∧
      100 + 4 * ((4 : Int).toNat * (3 : Int).toNat) ≤ 4294967296 ∧
      (1000 + 4 * ((4 : Int).toNat * (3 : Int).toNat) ≤ 100 ∨
        100 + 4 * ((4 : Int).toNat * (3 : Int).toNat) ≤ 1000) ∧
      ((3 : Int) = 16 ∨ ActiveOnly demoShade)) ∧
    ∃ r1 r2,
      processVertices demoIdx (VertexShader.new 4 4) demoShade demoUninit demoMem
        1000 100 3 = some r1 ∧
      processVertices demoIdx (VertexShader.new 4 4) demoShade demoUninit7 r1.mem
        1000 100 3 = some r2 ∧
      r2.mem = r1.mem :=
  have hao : ActiveOnly demoShade := fun _ _ _ _ _ _ _ _ => rfl
  ⟨⟨by decide, by decide, by decide, by decide, by decide, by decide, by decide, Or.inr hao⟩,
    processVertices_idempotent demoIdx 4 4 demoShade demoUninit demoUninit7 demoMem 1000 100 3
      (by decide) (by decide) (by decide) (by decide) (by decide) (by decide) (by decide)
      (Or.inr hao)⟩

/-- C8 (gather reads): for `numVertices` in 0..16 every address the gather reads
is the 32-bit address of an attribute `p < attribsPerVertex` of a record
`i < numVertices`, hence lies in `[attribs, attribs + 4*attribsPerVertex*numVertices)`
when that region is within the address space; there is one read per active lane
and attribute, so inactive lanes read nothing; and for `numVertices = 0` the mask
is 0 and nothing is read or written. -/
theorem gather_reads_bounded [One F] [Mul F] [Div F] (k : ParamIndices)
    (attribsPerVertex paramsPerVertex : Int) (shade : Shade F) (uninit : Nat → vecf16 F)
    (mem : Nat → F) (outParams attribs : Nat) (numVertices : Int)
    (h0 : 0 ≤ numVertices) (h16 : numVertices ≤ 16) (hk : k.Reserved)
    (hp : 4 ≤ paramsPerVertex) :
    ∃ mask r, computeMask numVertices = some mask ∧
      processVertices k (VertexShader.new attribsPerVertex paramsPerVertex) shade uninit mem
        outParams attribs numVertices = some r ∧
      (∀ a ∈ r.reads, ∃ i p : Nat, (i : Int) < numVertices ∧ p < attribsPerVertex.toNat ∧
        a = (attribs + 4 * (i * attribsPerVertex.toNat + p)) % 4294967296) ∧
      (attribs + 4 * (attribsPerVertex.toNat * numVertices.toNat) ≤ 4294967296 →
        ∀ a ∈ r.reads,
          attribs ≤ a ∧ a < attribs + 4 * (attribsPerVertex.toNat * numVertices.toNat)) ∧
      r.reads.length = attribsPerVertex.toNat * numVertices.toNat ∧
      (numVertices = 0 → mask = 0 ∧ r.reads = [] ∧ r.writes = []) := by
  obtain ⟨mask, d, hmask, -, hact, -, hdl, hrun⟩ := processVertices_run k attribsPerVertex
    paramsPerVertex shade uninit mem outParams attribs numVertices h0 hk hp
  have hn : (min numVertices 16).toNat = numVertices.toNat := by omega
  rw [hn] at hact
  have hlanes := activeLanes_length mask numVertices.toNat (by omega) hact
  have hrl : (gatherReads mask attribsPerVertex.toNat (basePtr attribsPerVertex attribs)).length
      = attribsPerVertex.toNat * numVertices.toNat := by
    rw [gatherReads_length, hlanes]
  have hwl : ((loopPairs mask d paramsPerVertex.toNat 0
      (basePtr paramsPerVertex outParams)).map Prod.fst).length
      = paramsPerVertex.toNat * numVertices.toNat := by
    rw [List.length_map, loopPairs_length _ _ _ _ _ (by omega), hlanes]
  refine ⟨mask, _, hmask, hrun, ?_, ?_, hrl, ?_⟩
  · intro a ha
    obtain ⟨p, hp', i, hi, rfl⟩ := (mem_reads attribsPerVertex attribs mask a).1 ha
    have hi' := (hact i).1 hi
    exact ⟨i.val, p, by omega, hp', cellAddr_mod _ _ _ _ (by omega)⟩
  · intro hfit a ha
    obtain ⟨p, hp', i, hi, rfl⟩ := (mem_reads attribsPerVertex attribs mask a).1 ha
    have hi' := (hact i).1 hi
    rw [cellAddr_fit attribs attribsPerVertex numVertices.toNat i.val p hfit hi' hp']
    have b := record_lt hi' hp'
    have c : numVertices.toNat * attribsPerVertex.toNat
        = attribsPerVertex.toNat * numVertices.toNat := Nat.mul_comm _ _
    omega
  · intro hz
    subst hz
    refine ⟨?_, ?_, ?_⟩
    · have : computeMask 0 = some 0 := by decide
      rw [this] at hmask
      exact (Option.some.inj hmask).symm
    · exact List.length_eq_zero.mp (by rw [hrl]; simp)
    · exact List.length_eq_zero.mp (by rw [hwl]; simp)

/-- A run on zero vertices, exhibiting C8. -/
theorem gather_reads_bounded_witness :
    ((0 : Int) ≤ 0 ∧ (0 : Int) ≤ 16 ∧ demoIdx.Reserved ∧ (4 : Int) ≤ 4) ∧
    ∃ mask r, computeMask 0 = some mask ∧
      processVertices demoIdx (VertexShader.new 4 4) demoShade demoUninit demoMem
        1000 100 0 = some r ∧ mask = 0 ∧ r.reads = [] ∧ r.writes = [] := by
  refine ⟨by decide, ?_⟩
  obtain ⟨mask, r, h1, h2, -, -, -, h3⟩ := gather_reads_bounded demoIdx 4 4 demoShade
    demoUninit demoMem 1000 100 0 (by decide) (by decide) (by decide) (by decide)
  exact ⟨mask, r, h1, h2, h3 rfl⟩

/-- C9 (batch cap): for every `numVertices ≥ 0`, also above 16, the number of
active lanes is `min numVertices 16`, record `i` of the output buffer is written
iff `i < min numVertices 16`, every write lands inside those records, and so no
call writes beyond the sixteenth record. -/
theorem batch_cap [One F] [Mul F] [Div F] (k : ParamIndices)
    (attribsPerVertex paramsPerVertex : Int) (shade : Shade F) (uninit : Nat → vecf16 F)
    (mem : Nat → F) (outParams attribs : Nat) (numVertices : Int)
    (h0 : 0 ≤ numVertices) (hk : k.Reserved) (hp : 4 ≤ paramsPerVertex)
    (hfit : outParams + 4 * (paramsPerVertex.toNat * (min numVertices 16).toNat)
      ≤ 4294967296) :
    ∃ mask r, computeMask numVertices = some mask ∧
      processVertices k (VertexShader.new attribsPerVertex paramsPerVertex) shade uninit mem
        outParams attribs numVertices = some r ∧
      (activeLanes mask).length = (min numVertices 16).toNat ∧
      (∀ i p : Nat, p < paramsPerVertex.toNat →
        (outParams + 4 * (i * paramsPerVertex.toNat + p) ∈ r.writes ↔
          (i : Int) < min numVertices 16)) ∧
      (∀ a ∈ r.writes, outParams ≤ a ∧
        a < outParams + 4 * (paramsPerVertex.toNat * (min numVertices 16).toNat)) ∧
      r.writes.length = paramsPerVertex.toNat * (min numVertices 16).toNat := by
  obtain ⟨mask, d, hmask, -, hact, -, hdl, hrun⟩ := processVertices_run k attribsPerVertex
    paramsPerVertex shade uninit mem outParams attribs numVertices h0 hk hp
  have hn16 : (min numVertices 16).toNat ≤ 16 := by omega
  have hlanes := activeLanes_length mask _ hn16 hact
  have key := mem_writes_addr paramsPerVertex outParams mask d _ hact hdl hn16 hfit
  refine ⟨mask, _, hmask, hrun, hlanes, ?_, ?_, ?_⟩
  · intro i p hpp
    rw [writes_mem_iff, key]
    constructor
    · rintro ⟨j, q, hj, hq, he⟩
      have he' : i * paramsPerVertex.toNat + p = j * paramsPerVertex.toNat + q := by omega
      obtain ⟨hij, -⟩ := record_inj hpp hq he'
      omega
    · intro hi
      exact ⟨i, p, by omega, hpp, rfl⟩
  · intro a ha
    rw [writes_mem_iff, key] at ha
    obtain ⟨j, q, hj, hq, rfl⟩ := ha
    have b := record_lt hj hq
    have c : (min numVertices 16).toNat * paramsPerVertex.toNat
        = paramsPerVertex.toNat * (min numVertices 16).toNat := Nat.mul_comm _ _
    omega
  · rw [List.length_map, loopPairs_length _ _ _ _ _ (by omega), hlanes]

/-- A run asked for forty vertices, exhibiting C9. -/
theorem batch_cap_witness :
    ((0 : Int) ≤ 40 ∧ demoIdx.Reserved ∧ (4 : Int) ≤ 4 ∧
      1000 + 4 * ((4 : Int).toNat * (min (40 : Int) 16).toNat) ≤ 4294967296) ∧
    ∃ mask r, computeMask 40 = some mask ∧
      processVertices demoIdx (VertexShader.new 4 4) demoShade demoUninit demoMem
        1000 100 40 = some r ∧
      (activeLanes mask).length = (min (40 : Int) 16).toNat ∧
      r.writes.length = (4 : Int).toNat * (min (40 : Int) 16).toNat := by
  refine ⟨by decide, ?_⟩
  obtain ⟨mask, r, h1, h2, h3, -, -, h4⟩ := batch_cap demoIdx 4 4 demoShade
    demoUninit demoMem 1000 100 40 (by decide) (by decide) (by decide) (by decide)
  exact ⟨mask, r, h1, h2, h3, h4⟩

/-- C10 as stated fails: for `numVertices = 0` the mask is 0, which activates
exactly the first `min 0 16 = 0` lanes, so it is not true that every count
outside 1..16 yields an incorrect mask. -/
theorem incorrect_mask_refuted :
    computeMask 0 = some 0 ∧ MaskCorrect 0 0 ∧
    ¬ (∀ numVertices : Int, (numVertices = 0 ∨ 16 < numVertices) →
        ∃ mask, computeMask numVertices = some mask ∧ ¬ MaskCorrect numVertices mask) := by
  have h1 : computeMask 0 = some 0 := by decide
  have h2 : MaskCorrect 0 0 := by decide
  refine ⟨h1, h2, fun h => ?_⟩
  obtain ⟨mask, hm, hc⟩ := h 0 (Or.inl rfl)
  rw [h1] at hm
  cases hm
  exact hc h2

/-- C10 (amended): a call whose `numVertices` is 0 or greater than 16 still
computes a mask, and that mask activates exactly the first `min numVertices 16`
lanes (none for 0, all sixteen above 16). -/
theorem mask_outside_range_correct (numVertices : Int)
    (h : numVertices = 0 ∨ 16 < numVertices) :
    ∃ mask, computeMask numVertices = some mask ∧ MaskCorrect numVertices mask := by
  obtain ⟨mask, hm, -, hact⟩ := computeMask_spec numVertices (by omega)
  refine ⟨mask, hm, fun i => ?_⟩
  rw [hact i]
  have := i.isLt
  omega

/-- The mask for seventeen vertices, exhibiting the amended C10. -/
theorem mask_outside_range_correct_witness :
    ((17 : Int) = 0 ∨ (16 : Int) < 17) ∧
    ∃ mask, computeMask 17 = some mask ∧ MaskCorrect 17 mask :=
  ⟨by decide, mask_outside_range_correct 17 (by decide)⟩

/-- C11 (independence from inactive lanes): for every `numVertices ≥ 0` (so for
0..16), two runs from the same memory whose capabilities produce outputs that
agree on every lane `i < numVertices` leave equal memories, whatever the inactive
lanes hold; and for a lane-wise capability two runs from memories that agree on
the first `numVertices` attribute records perform the same writes, so their
results agree on every written cell and on every cell where the initial memories
agree. -/
theorem inactive_lane_independence [One F] [Mul F] [Div F] (k : ParamIndices)
    (attribsPerVertex paramsPerVertex : Int) (outParams attribs : Nat) (numVertices : Int)
    (h0 : 0 ≤ numVertices) (hk : k.Reserved) (hp : 4 ≤ paramsPerVertex) :
    (∀ (shade1 shade2 : Shade F) (uninit1 uninit2 : Nat → vecf16 F) (mem : Nat → F),
      (∀ mask, computeMask numVertices = some mask → ∀ p, p < paramsPerVertex.toNat →
        ∀ i : Fin 16, (i.val : Int) < numVertices →
        shade1 (gatherAttribs (VertexShader.new attribsPerVertex paramsPerVertex) uninit1 mem
            attribs mask).1 mask p i
          = shade2 (gatherAttribs (VertexShader.new attribsPerVertex paramsPerVertex) uninit2
              mem attribs mask).1 mask p i) →
      ∃ r1 r2,
        processVertices k (VertexShader.new attribsPerVertex paramsPerVertex) shade1 uninit1
          mem outParams attribs numVertices = some r1 ∧
        processVertices k (VertexShader.new attribsPerVertex paramsPerVertex) shade2 uninit2
          mem outParams attribs numVertices = some r2 ∧
        r1.mem = r2.mem) ∧
    (∀ (shade : Shade F) (uninit1 uninit2 : Nat → vecf16 F) (mem1 mem2 : Nat → F),
      LaneWise shade →
      (∀ i a : Nat, (i : Int) < numVertices → (a : Int) < attribsPerVertex →
        mem1 ((attribs + 4 * (i * attribsPerVertex.toNat + a)) % 4294967296)
          = mem2 ((attribs + 4 * (i * attribsPerVertex.toNat + a)) % 4294967296)) →
      ∃ r1 r2,
        processVertices k (VertexShader.new attribsPerVertex paramsPerVertex) shade uninit1
          mem1 outParams attribs numVertices = some r1 ∧
        processVertices k (VertexShader.new attribsPerVertex paramsPerVertex) shade uninit2
          mem2 outParams attribs numVertices = some r2 ∧
        r1.writes = r2.writes ∧
        ∀ a, (a ∈ r1.writes ∨ mem1 a = mem2 a) → r1.mem a = r2.mem a) := by
  constructor
  · intro shade1 shade2 uninit1 uninit2 mem h
    obtain ⟨l, r1, r2, h1, h2, e1, e2, -, -⟩ := run_pairs_congr k attribsPerVertex
      paramsPerVertex shade1 shade2 uninit1 uninit2 mem mem outParams attribs numVertices
      h0 hk hp h
    exact ⟨r1, r2, h1, h2, e1.trans e2.symm⟩
  · intro shade uninit1 uninit2 mem1 mem2 hlw hagree
    obtain ⟨l, r1, r2, h1, h2, e1, e2, w1, w2⟩ := run_pairs_congr k attribsPerVertex
      paramsPerVertex shade shade uninit1 uninit2 mem1 mem2 outParams attribs numVertices
      h0 hk hp (by
        intro mask hmask p _ i hi
        obtain ⟨mask', hmask', -, hact⟩ := computeMask_spec numVertices h0
        have hm : mask' = mask := by
          rw [hmask] at hmask'
          exact (Option.some.inj hmask').symm
        subst hm
        apply hlw
        · rw [gatherAttribs_length, gatherAttribs_length]
        · intro a v1 v2 hv1 hv2
          rw [gatherAttribs_get] at hv1 hv2
          by_cases ha : a < attribsPerVertex.toNat
          · simp only [ha, if_true, Option.some.injEq] at hv1 hv2
            subst hv1; subst hv2
            simp only [(hact i).2 hi, if_true]
            rw [cellAddr_mod _ _ _ _ (by omega)]
            exact hagree i.val a hi (by omega)
          · simp [ha] at hv1)
    refine ⟨r1, r2, h1, h2, w1.trans w2.symm, fun a ha => ?_⟩
    rw [e1, e2]
    apply applyWrites_congr
    rcases ha with ha | ha
    · left
      rw [w1, writes_mem_iff] at ha
      exact ha
    · exact Or.inr ha

/-- Two runs of the constant capability on memories that differ beyond address
200, exhibiting C11. -/
theorem inactive_lane_independence_witness :
    ((0 : Int) ≤ 3 ∧ demoIdx.Reserved ∧ (4 : Int) ≤ 4) ∧
    ∃ r1 r2,
      processVertices demoIdx (VertexShader.new 4 4) demoShade demoUninit demoMem
        1000 100 3 = some r1 ∧
      processVertices demoIdx (VertexShader.new 4 4) demoShade demoUninit demoMemCut
        1000 100 3 = some r2 ∧
      r1.writes = r2.writes ∧
      ∀ a, (a ∈ r1.writes ∨ demoMem a = demoMemCut a) → r1.mem a = r2.mem a := by
  refine ⟨by decide, ?_⟩
  exact (inactive_lane_independence demoIdx 4 4 1000 100 3 (by decide) (by decide)
    (by decide)).2 demoShade demoUninit demoUninit demoMem demoMemCut
    (fun _ _ _ _ _ _ _ => rfl)
    (fun i a hi ha => by
      have h1 : (100 + 4 * (i * (4 : Int).toNat + a)) % 4294967296 < 200 := by
        have e : (4 : Int).toNat = 4 := by decide
        rw [e]
        omega
      simp only [demoMem, demoMemCut, h1, if_true])

/-- C13 (divide-step indices in range): with `paramsPerVertex ≥ 4` and the
reserved indices below 4, `packedParams` has `paramsPerVertex` entries, the three
reserved indices are in range, the lookups `packedParams[kParamW]`,
`packedParams[kParamX]` and (after the X update) `packedParams[kParamY]` all
succeed, and the divide step returns. -/
theorem divide_indices_in_range [One F] [Mul F] [Div F] (k : ParamIndices)
    (attribsPerVertex paramsPerVertex : Int) (shade : Shade F) (uninit : Nat → vecf16 F)
    (mem : Nat → F) (attribs mask : Nat) (hp : 4 ≤ paramsPerVertex) (hk : k.Reserved) :
    ∃ packedParams w x y d,
      packedParams = (List.range (VertexShader.new attribsPerVertex paramsPerVertex).fParamsPerVertex.toNat).map
        (shade (gatherAttribs (VertexShader.new attribsPerVertex paramsPerVertex) uninit mem
          attribs mask).1 mask) ∧
      (packedParams.length : Int) = paramsPerVertex ∧
      k.kParamW < packedParams.length ∧ k.kParamX < packedParams.length ∧
      k.kParamY < packedParams.length ∧
      packedParams[k.kParamW]? = some w ∧ packedParams[k.kParamX]? = some x ∧
      (packedParams.set k.kParamX (vecf16.mul x (vecf16.div (splatf 1) w)))[k.kParamY]? = some y ∧
      perspectiveDivide k packedParams = some d := by
  obtain ⟨hx, hy, hw⟩ := hk
  have e : (VertexShader.new attribsPerVertex paramsPerVertex).fParamsPerVertex
      = paramsPerVertex := rfl
  have hl : ((List.range (VertexShader.new attribsPerVertex paramsPerVertex).fParamsPerVertex.toNat).map
      (shade (gatherAttribs (VertexShader.new attribsPerVertex paramsPerVertex) uninit mem
        attribs mask).1 mask)).length = paramsPerVertex.toNat := by
    simp [e]
  have hxl := hl ▸ (show k.kParamX < paramsPerVertex.toNat by omega)
  have hyl := hl ▸ (show k.kParamY < paramsPerVertex.toNat by omega)
  have hwl := hl ▸ (show k.kParamW < paramsPerVertex.toNat by omega)
  obtain ⟨d, hd, -, -, -⟩ := perspectiveDivide_some k _ hxl hyl hwl
  refine ⟨_, _, _, _, d, rfl, by rw [hl]; omega, hwl, hxl, hyl,
    List.getElem?_eq_getElem hwl, List.getElem?_eq_getElem hxl,
    List.getElem?_eq_getElem (by simpa using hyl), hd⟩

/-- The divide step on four parameters with indices 0, 1, 3, exhibiting C13. -/
theorem divide_indices_in_range_witness :
    ((4 : Int) ≤ 4 ∧ demoIdx.Reserved) ∧
    ∃ d, perspectiveDivide demoIdx
      ((List.range (VertexShader.new 4 4).fParamsPerVertex.toNat).map
        (demoShade (gatherAttribs (VertexShader.new 4 4) demoUninit demoMem 100 0xe000).1
          0xe000)) = some d := by
  refine ⟨by decide, ?_⟩
  obtain ⟨pp, w, x, y, d, h1, -, -, -, -, -, -, -, h2⟩ := divide_indices_in_range demoIdx 4 4
    demoShade demoUninit demoMem 100 0xe000 (by decide) (by decide)
  subst h1
  exact ⟨d, h2⟩

/-- C14 (distinct scatter addresses): for `paramsPerVertex ≥ 1` and sixteen
output records that do not wrap around the address space, lane `i` of `paramPtr`
in iteration `p` addresses `outParams + 4*i*paramsPerVertex + 4*p`, this map is
injective on lanes 0..15 and `p < paramsPerVertex`, the scatter loop therefore
writes no cell twice, and applying its stores in any order gives the memory the
loop leaves; the gather addresses with `attribsPerVertex` are given by the same
formula, are injective, and no cell is read twice. -/
theorem addresses_injective (attribsPerVertex paramsPerVertex : Int)
    (outParams attribs mask : Nat) :
    (1 ≤ paramsPerVertex → outParams + 4 * (paramsPerVertex.toNat * 16) ≤ 4294967296 →
      (∀ (i : Fin 16) (p : Nat), p < paramsPerVertex.toNat →
        addrOf (advance ((VertexShader.new attribsPerVertex paramsPerVertex).fParamStepVector.add
          (splati ((outParams : Int) % 4294967296))) p i)
          = outParams + 4 * i.val * paramsPerVertex.toNat + 4 * p) ∧
      (∀ (i j : Fin 16) (p q : Nat), p < paramsPerVertex.toNat → q < paramsPerVertex.toNat →
        outParams + 4 * i.val * paramsPerVertex.toNat + 4 * p
          = outParams + 4 * j.val * paramsPerVertex.toNat + 4 * q → i = j ∧ p = q) ∧
      (∀ (packedParams : List (vecf16 F)) (m : Machine F),
        packedParams.length = paramsPerVertex.toNat →
        ∃ ptr r stores,
          stores = loopPairs mask packedParams paramsPerVertex.toNat 0
            ((VertexShader.new attribsPerVertex paramsPerVertex).fParamStepVector.add
              (splati ((outParams : Int) % 4294967296))) ∧
          scatterLoop mask packedParams paramsPerVertex.toNat 0
            ((VertexShader.new attribsPerVertex paramsPerVertex).fParamStepVector.add
              (splati ((outParams : Int) % 4294967296))) m = some (ptr, r) ∧
          r.writes = m.writes ++ stores.map Prod.fst ∧
          (stores.map Prod.fst).Nodup ∧
          ∀ l, l.Perm stores → applyWrites l m.mem = r.mem)) ∧
    (1 ≤ attribsPerVertex → attribs + 4 * (attribsPerVertex.toNat * 16) ≤ 4294967296 →
      (∀ (i : Fin 16) (a : Nat), a < attribsPerVertex.toNat →
        addrOf (advance ((VertexShader.new attribsPerVertex paramsPerVertex).fAttribStepVector.add
          (splati ((attribs : Int) % 4294967296))) a i)
          = attribs + 4 * i.val * attribsPerVertex.toNat + 4 * a) ∧
      (∀ (i j : Fin 16) (a b : Nat), a < attribsPerVertex.toNat → b < attribsPerVertex.toNat →
        attribs + 4 * i.val * attribsPerVertex.toNat + 4 * a
          = attribs + 4 * j.val * attribsPerVertex.toNat + 4 * b → i = j ∧ a = b) ∧
      (∀ (uninit : Nat → vecf16 F) (mem : Nat → F),
        (gatherAttribs (VertexShader.new attribsPerVertex paramsPerVertex) uninit mem attribs
          mask).2.reads.Nodup)) := by
  have eP : (VertexShader.new attribsPerVertex paramsPerVertex).fParamStepVector.add
      (splati ((outParams : Int) % 4294967296)) = basePtr paramsPerVertex outParams := rfl
  have eA : (VertexShader.new attribsPerVertex paramsPerVertex).fAttribStepVector.add
      (splati ((attribs : Int) % 4294967296)) = basePtr attribsPerVertex attribs := rfl
  rw [eP, eA]
  constructor
  · intro _ hfit
    refine ⟨fun i p hp => lane_addr_fit _ _ hfit i p hp,
      fun i j p q hp hq h => lane_addr_inj _ _ i j p q hp hq h, fun pp m hlen => ?_⟩
    have hinj := fun t t' i i' ht ht' h =>
      basePtr_inj paramsPerVertex outParams hfit t t' i i' ht ht' h
    refine ⟨_, _, _, rfl, scatterLoop_eq mask pp _ 0 _ m (by omega), rfl, ?_, ?_⟩
    · rw [loopPairs_fst _ _ _ _ _ (by omega)]
      exact gatherReads_nodup mask _ _ hinj
    · intro l hl
      exact applyWrites_perm _ l m.mem (loopPairs_consistent mask pp _ _ hinj) hl
  · intro _ hfit
    refine ⟨fun i p hp => lane_addr_fit _ _ hfit i p hp,
      fun i j p q hp hq h => lane_addr_inj _ _ i j p q hp hq h, fun uninit mem => ?_⟩
    rw [gatherAttribs_machine]
    exact gatherReads_nodup mask _ _
      (fun t t' i i' ht ht' h => basePtr_inj attribsPerVertex attribs hfit t t' i i' ht ht' h)

/-- The scatter of a full batch with four parameters at address 1000,
exhibiting C14. -/
theorem addresses_injective_witness :
    ((1 : Int) ≤ 4 ∧ 1000 + 4 * ((4 : Int).toNat * 16) ≤ 4294967296) ∧
    (∀ (i j : Fin 16) (p q : Nat), p < (4 : Int).toNat → q < (4 : Int).toNat →
      1000 + 4 * i.val * (4 : Int).toNat + 4 * p = 1000 + 4 * j.val * (4 : Int).toNat + 4 * q →
      i = j ∧ p = q) ∧
    ∀ (i : Fin 16) (p : Nat), p < (4 : Int).toNat →
      addrOf (advance ((VertexShader.new 4 4).fParamStepVector.add
        (splati (((1000 : Nat) : Int) % 4294967296))) p i)
        = 1000 + 4 * i.val * (4 : Int).toNat + 4 * p := by
  refine ⟨by decide, ?_⟩
  obtain ⟨h1, h2, -⟩ := (addresses_injective (F := ℚ) 4 4 1000 100 0xffff).1 (by decide)
    (by decide)
  exact ⟨h2, h1⟩

/-- C15 (mask shape): for every `numVertices ≥ 0` the mask is below `2^16`, equals
`0xffff - (2^(16-k) - 1)` with `k = min numVertices 16`, has exactly `k` set bits,
and is a bitwise subset of the mask for `numVertices + 1`. -/
theorem computeMask_prefix (numVertices : Int) (h0 : 0 ≤ numVertices) :
    ∃ mask next, computeMask numVertices = some mask ∧
      computeMask (numVertices + 1) = some next ∧
      mask < 65536 ∧
      mask = 65535 - (2 ^ (16 - (min numVertices 16).toNat) - 1) ∧
      bitCount 16 mask = (min numVertices 16).toNat ∧
      mask &&& next = mask := by
  by_cases h : numVertices < 16
  · obtain ⟨n, rfl⟩ := Int.eq_ofNat_of_zero_le h0
    have hn : n < 16 := by omega
    have hk : (min (n : Int) 16).toNat = n := by omega
    rw [hk]
    interval_cases n <;> exact ⟨_, _, rfl, rfl, by decide, by decide, by decide, by decide⟩
  · have h1 : ¬ numVertices + 1 < 16 := by omega
    have hk : (min numVertices 16).toNat = 16 := by omega
    rw [hk]
    exact ⟨0xffff, 0xffff, by simp [computeMask, h], by simp [computeMask, h1], by decide,
      by decide, by decide, by decide⟩

/-- The masks for three and four vertices, exhibiting C15. -/
theorem computeMask_prefix_witness :
    (0 : Int) ≤ 3 ∧
    ∃ mask next, computeMask 3 = some mask ∧ computeMask (3 + 1) = some next ∧
      mask < 65536 ∧ mask = 65535 - (2 ^ (16 - (min (3 : Int) 16).toNat) - 1) ∧
      bitCount 16 mask = (min (3 : Int) 16).toNat ∧ mask &&& next = mask :=
  ⟨by decide, computeMask_prefix 3 (by decide)⟩

/-- C16 (idempotence needs disjoint buffers): with five attributes and five
parameters per vertex, one vertex, `outParams = attribs = 1000` and the
deterministic capability `bumpShade`, the first call leaves 1017 in cell 1016 and
the second call leaves 1018 there, so the memory after two successive calls
differs from the memory after one. -/
theorem overlap_not_idempotent (k : ParamIndices) (hk : k.Reserved) :
    ∃ r1 r2,
      processVertices k (VertexShader.new 5 5) bumpShade demoUninit demoMem 1000 1000 1
        = some r1 ∧
      processVertices k (VertexShader.new 5 5) bumpShade demoUninit r1.mem 1000 1000 1
        = some r2 ∧
      r1.mem 1016 = 1017 ∧ r2.mem 1016 = 1018 ∧ r2.mem ≠ r1.mem := by
  have h4x : 4 ≠ k.kParamX := by have := hk.1; omega
  have h4y : 4 ≠ k.kParamY := by have := hk.2.1; omega
  obtain ⟨mask, r1, hmask, hrun1, hv1⟩ := written_plain k 5 5 bumpShade demoUninit demoMem
    1000 1000 1 0 4 (by decide) (by decide) hk (by decide) (by decide) (by decide) (by decide)
    h4x h4y
  obtain ⟨mask2, r2, hmask2, hrun2, hv2⟩ := written_plain k 5 5 bumpShade demoUninit r1.mem
    1000 1000 1 0 4 (by decide) (by decide) hk (by decide) (by decide) (by decide) (by decide)
    h4x h4y
  have e : 1000 + 4 * ((0 : Fin 16).val * (5 : Int).toNat + 4) = 1016 := by decide
  rw [e] at hv1 hv2
  have g1 := gathered_bump demoUninit demoMem mask hmask
  have g2 := gathered_bump demoUninit r1.mem mask2 hmask2
  have c1 : r1.mem 1016 = 1017 := by
    rw [hv1]
    simp only [bumpShade, if_true, g1, demoMem]
    norm_num
  have c2 : r2.mem 1016 = 1018 := by
    rw [hv2]
    simp only [bumpShade, if_true, g2, c1]
    norm_num
  refine ⟨r1, r2, hrun1, hrun2, c1, c2, fun h => ?_⟩
  have := congrFun h 1016
  rw [c1, c2] at this
  norm_num at this

/-- The overlapping run under the sample indices, exhibiting C16. -/
theorem overlap_not_idempotent_witness :
    demoIdx.Reserved ∧
    ∃ r1 r2,
      processVertices demoIdx (VertexShader.new 5 5) bumpShade demoUninit demoMem 1000 1000 1
        = some r1 ∧
      processVertices demoIdx (VertexShader.new 5 5) bumpShade demoUninit r1.mem 1000 1000 1
        = some r2 ∧
      r1.mem 1016 = 1017 ∧ r2.mem 1016 = 1018 ∧ r2.mem ≠ r1.mem :=
  ⟨by decide, overlap_not_idempotent demoIdx (by decide)⟩

/-- C17 (loop invariants): the gather loop of `processVertices` is exactly
`attribsPerVertex` executions of its body; at the start of iteration `a` the
counter is `a`, the loop condition holds iff `a < attribsPerVertex`, and lane `i`
of `attribPtr` is `attribs + 4*i*attribsPerVertex + 4*a` modulo `2^32`.  The
scatter loop likewise is exactly `paramsPerVertex` executions of its body, none
of which indexes `packedParams` out of range, and at the start of iteration `p`
lane `i` of `paramPtr` is `outParams + 4*i*paramsPerVertex + 4*p` modulo `2^32`.
Both loops return. -/
theorem loop_invariants (attribsPerVertex paramsPerVertex : Int) (uninit : Nat → vecf16 F)
    (mem : Nat → F) (attribs outParams mask : Nat) (packedParams : List (vecf16 F))
    (m : Machine F) (hlen : packedParams.length = paramsPerVertex.toNat) :
    (gatherLoop mask uninit attribsPerVertex.toNat 0
        ((VertexShader.new attribsPerVertex paramsPerVertex).fAttribStepVector.add
          (splati ((attribs : Int) % 4294967296)))
        ((List.range attribsPerVertex.toNat).map uninit) ⟨mem, [], []⟩
      = (gatherIter mask uninit
          (0, (VertexShader.new attribsPerVertex paramsPerVertex).fAttribStepVector.add
            (splati ((attribs : Int) % 4294967296)),
            (List.range attribsPerVertex.toNat).map uninit, ⟨mem, [], []⟩)
          attribsPerVertex.toNat).2) ∧
    (∀ a : Nat, a ≤ attribsPerVertex.toNat →
      ∃ s, s = gatherIter mask uninit
          (0, (VertexShader.new attribsPerVertex paramsPerVertex).fAttribStepVector.add
            (splati ((attribs : Int) % 4294967296)),
            (List.range attribsPerVertex.toNat).map uninit, ⟨mem, [], []⟩) a ∧
        s.1 = a ∧
        ((s.1 : Int) < (VertexShader.new attribsPerVertex paramsPerVertex).fAttribsPerVertex
          ↔ a < attribsPerVertex.toNat) ∧
        ∀ i : Fin 16, s.2.1 i ≡ (attribs : Int) + 4 * (i.val : Int) * attribsPerVertex
          + 4 * (a : Int) [ZMOD 4294967296]) ∧
    (∃ s, scatterIter mask packedParams
          (0, (VertexShader.new attribsPerVertex paramsPerVertex).fParamStepVector.add
            (splati ((outParams : Int) % 4294967296)), m) paramsPerVertex.toNat = some s ∧
      scatterLoop mask packedParams paramsPerVertex.toNat 0
        ((VertexShader.new attribsPerVertex paramsPerVertex).fParamStepVector.add
          (splati ((outParams : Int) % 4294967296))) m = some s.2) ∧
    (∀ p : Nat, p ≤ paramsPerVertex.toNat →
      ∃ s, scatterIter mask packedParams
          (0, (VertexShader.new attribsPerVertex paramsPerVertex).fParamStepVector.add
            (splati ((outParams : Int) % 4294967296)), m) p = some s ∧
        s.1 = p ∧
        ((s.1 : Int) < (VertexShader.new attribsPerVertex paramsPerVertex).fParamsPerVertex
          ↔ p < paramsPerVertex.toNat) ∧
        ∀ i : Fin 16, s.2.1 i ≡ (outParams : Int) + 4 * (i.val : Int) * paramsPerVertex
          + 4 * (p : Int) [ZMOD 4294967296]) := by
  have eP : (VertexShader.new attribsPerVertex paramsPerVertex).fParamStepVector.add
      (splati ((outParams : Int) % 4294967296)) = basePtr paramsPerVertex outParams := rfl
  have eA : (VertexShader.new attribsPerVertex paramsPerVertex).fAttribStepVector.add
      (splati ((attribs : Int) % 4294967296)) = basePtr attribsPerVertex attribs := rfl
  have fA : (VertexShader.new attribsPerVertex paramsPerVertex).fAttribsPerVertex
      = attribsPerVertex := rfl
  have fP : (VertexShader.new attribsPerVertex paramsPerVertex).fParamsPerVertex
      = paramsPerVertex := rfl
  rw [eP, eA, fA, fP]
  refine ⟨?_, fun a ha => ?_, ?_, fun p hp => ?_⟩
  · exact gatherLoop_iter mask uninit attribsPerVertex.toNat
      (0, basePtr attribsPerVertex attribs, (List.range attribsPerVertex.toNat).map uninit,
        ⟨mem, [], []⟩)
  · obtain ⟨h1, h2⟩ := gatherIter_state mask uninit
      (0, basePtr attribsPerVertex attribs, (List.range attribsPerVertex.toNat).map uninit,
        ⟨mem, [], []⟩) a
    refine ⟨_, rfl, by simpa using h1, ?_, fun i => ?_⟩
    · rw [h1]; simp only [Nat.zero_add]; omega
    · rw [h2]
      exact basePtr_lane_modEq attribsPerVertex attribs i a
  · obtain ⟨s, h1, -, -⟩ := scatterIter_state mask packedParams
      (0, basePtr paramsPerVertex outParams, m) paramsPerVertex.toNat (by simp [hlen])
    refine ⟨s, h1, ?_⟩
    have := scatterLoop_iter mask packedParams paramsPerVertex.toNat
      (0, basePtr paramsPerVertex outParams, m)
    rw [h1] at this
    exact this
  · obtain ⟨s, h1, h2, h3⟩ := scatterIter_state mask packedParams
      (0, basePtr paramsPerVertex outParams, m) p (by simp only [Nat.zero_add]; omega)
    refine ⟨s, h1, by simpa using h2, ?_, fun i => ?_⟩
    · rw [h2]; simp only [Nat.zero_add]; omega
    · rw [h3]
      exact basePtr_lane_modEq paramsPerVertex outParams i p

/-- The scatter loop over four constant parameter vectors at address 1000,
exhibiting C17. -/
theorem loop_invariants_witness :
    (List.replicate 4 (fun _ => (1 : ℚ)) : List (vecf16 ℚ)).length = (4 : Int).toNat ∧
    ∃ s, scatterIter 0xe000 (List.replicate 4 (fun _ => (1 : ℚ)))
          (0, (VertexShader.new 4 4).fParamStepVector.add
            (splati (((1000 : Nat) : Int) % 4294967296)), ⟨demoMem, [], []⟩)
          (4 : Int).toNat = some s ∧
      scatterLoop 0xe000 (List.replicate 4 (fun _ => (1 : ℚ))) (4 : Int).toNat 0
        ((VertexShader.new 4 4).fParamStepVector.add
          (splati (((1000 : Nat) : Int) % 4294967296))) ⟨demoMem, [], []⟩ = some s.2 :=
  ⟨by decide, (loop_invariants 4 4 demoUninit demoMem 100 1000 0xe000
    (List.replicate 4 (fun _ => (1 : ℚ))) ⟨demoMem, [], []⟩ (by decide)).2.2.1⟩

end render
